import Mathlib

/-
Verification of the mesh-to-parametric-CAD reconstruction core of the
drawing-to-kcl-to-cad repository (the `stl-to-cad` package).

The development shallowly embeds the Python source:
  * 3D float vectors become `V3 ℝ` (exact real arithmetic); mesh data that
    only ever undergoes field operations and rounding becomes `V3 ℚ`, so the
    parser and vertex-welding models stay computable.
  * external numeric library calls (numpy SVD, scipy least squares / griddata /
    spline evaluation) are passed in explicitly as oracle values: `none`
    models the call raising, `some r` models it returning `r`.
  * Python exceptions surface as `Except`/`Option` failures.
-/

/-- Component triple modelling a length-3 numpy vector. -/
structure V3 (α : Type) where
  x : α
  y : α
  z : α
  deriving DecidableEq

instance {α : Type} [Add α] : Add (V3 α) :=
  ⟨fun a b => ⟨a.x + b.x, a.y + b.y, a.z + b.z⟩⟩

instance {α : Type} [Sub α] : Sub (V3 α) :=
  ⟨fun a b => ⟨a.x - b.x, a.y - b.y, a.z - b.z⟩⟩

instance {α : Type} [Neg α] : Neg (V3 α) :=
  ⟨fun a => ⟨-a.x, -a.y, -a.z⟩⟩

instance {α : Type} [Mul α] : SMul α (V3 α) :=
  ⟨fun r v => ⟨r * v.x, r * v.y, r * v.z⟩⟩

@[simp] theorem V3.add_x {α : Type} [Add α] (a b : V3 α) : (a + b).x = a.x + b.x := rfl

@[simp] theorem V3.add_y {α : Type} [Add α] (a b : V3 α) : (a + b).y = a.y + b.y := rfl

@[simp] theorem V3.add_z {α : Type} [Add α] (a b : V3 α) : (a + b).z = a.z + b.z := rfl

@[simp] theorem V3.sub_x {α : Type} [Sub α] (a b : V3 α) : (a - b).x = a.x - b.x := rfl

@[simp] theorem V3.sub_y {α : Type} [Sub α] (a b : V3 α) : (a - b).y = a.y - b.y := rfl

@[simp] theorem V3.sub_z {α : Type} [Sub α] (a b : V3 α) : (a - b).z = a.z - b.z := rfl

@[simp] theorem V3.smul_x {α : Type} [Mul α] (r : α) (v : V3 α) : (r • v).x = r * v.x := rfl

@[simp] theorem V3.smul_y {α : Type} [Mul α] (r : α) (v : V3 α) : (r • v).y = r * v.y := rfl

@[simp] theorem V3.smul_z {α : Type} [Mul α] (r : α) (v : V3 α) : (r • v).z = r * v.z := rfl

/-- Dot product, `np.dot` on length-3 vectors. -/
def V3.dot {α : Type} [Mul α] [Add α] (a b : V3 α) : α :=
  a.x * b.x + a.y * b.y + a.z * b.z

/-- Euclidean norm, `np.linalg.norm` on a length-3 vector. -/
noncomputable def V3.norm (v : V3 ℝ) : ℝ :=
  Real.sqrt (V3.dot v v)

theorem V3.dot_self_nonneg (v : V3 ℝ) : 0 ≤ V3.dot v v := by
  simp only [V3.dot]
  nlinarith [mul_self_nonneg v.x, mul_self_nonneg v.y, mul_self_nonneg v.z]

theorem V3.norm_nonneg (v : V3 ℝ) : 0 ≤ V3.norm v :=
  Real.sqrt_nonneg _

theorem V3.norm_eq_of_sq (v : V3 ℝ) (c : ℝ) (hc : 0 ≤ c) (h : V3.dot v v = c ^ 2) :
    V3.norm v = c := by
  rw [V3.norm, h, Real.sqrt_sq hc]

theorem V3.sq_norm (v : V3 ℝ) : V3.norm v ^ 2 = V3.dot v v := by
  rw [V3.norm, Real.sq_sqrt (V3.dot_self_nonneg v)]

theorem V3.norm_eq_zero_iff (v : V3 ℝ) : V3.norm v = 0 ↔ V3.dot v v = 0 := by
  rw [V3.norm, Real.sqrt_eq_zero (V3.dot_self_nonneg v)]

theorem V3.dot_comm (a b : V3 ℝ) : V3.dot a b = V3.dot b a := by
  simp only [V3.dot]; ring

theorem V3.dot_sub_left (a b c : V3 ℝ) :
    V3.dot (a - b) c = V3.dot a c - V3.dot b c := by
  simp only [V3.dot, V3.sub_x, V3.sub_y, V3.sub_z]; ring

theorem V3.dot_sub_right (a b c : V3 ℝ) :
    V3.dot a (b - c) = V3.dot a b - V3.dot a c := by
  simp only [V3.dot, V3.sub_x, V3.sub_y, V3.sub_z]; ring

theorem V3.dot_smul_left (r : ℝ) (a b : V3 ℝ) :
    V3.dot (r • a) b = r * V3.dot a b := by
  simp only [V3.dot, V3.smul_x, V3.smul_y, V3.smul_z]; ring

theorem V3.dot_smul_right (r : ℝ) (a b : V3 ℝ) :
    V3.dot a (r • b) = r * V3.dot a b := by
  simp only [V3.dot, V3.smul_x, V3.smul_y, V3.smul_z]; ring

/-
Geometric primitives, from
src/stl-to-cad/src/stl_to_cad/recognition/primitives.py.

The shared bookkeeping fields of the Python dataclasses (feature_type,
point_indices, fitting_error, confidence) and the `to_dict`/`to_kcl`
serializers are outside every claim and are not modelled; only the geometric
parameters and the `distance_to_point` methods are embedded.
-/

/-- Plane defined by point and normal (`PlaneFeature`). -/
structure PlaneFeature where
  point : V3 ℝ
  normal : V3 ℝ

/-- PlaneFeature.distance_to_point: `np.abs(np.dot(self.normal, point - self.point))`. -/
noncomputable def PlaneFeature.distance_to_point (f : PlaneFeature) (p : V3 ℝ) : ℝ :=
  |V3.dot f.normal (p - f.point)|

/-- Cylinder defined by axis point, direction and radius (`CylinderFeature`);
the optional height/start/end fields play no role in `distance_to_point`. -/
structure CylinderFeature where
  axis_point : V3 ℝ
  axis_direction : V3 ℝ
  radius : ℝ

/-- CylinderFeature.distance_to_point: perpendicular distance to the axis,
minus the radius, in absolute value. -/
noncomputable def CylinderFeature.distance_to_point (f : CylinderFeature) (p : V3 ℝ) : ℝ :=
  let v := p - f.axis_point
  let proj_length := V3.dot v f.axis_direction
  let proj := proj_length • f.axis_direction
  let perp := v - proj
  let perp_dist := V3.norm perp
  |perp_dist - f.radius|

/-- Sphere defined by center and radius (`SphereFeature`). -/
structure SphereFeature where
  center : V3 ℝ
  radius : ℝ

/-- SphereFeature.distance_to_point: `np.abs(np.linalg.norm(point - self.center) - self.radius)`. -/
noncomputable def SphereFeature.distance_to_point (f : SphereFeature) (p : V3 ℝ) : ℝ :=
  |V3.norm (p - f.center) - f.radius|

/-- Cone defined by apex, axis direction and half-angle (`ConeFeature`);
the optional height field plays no role in `distance_to_point`. -/
structure ConeFeature where
  apex : V3 ℝ
  axis_direction : V3 ℝ
  half_angle : ℝ

/-- ConeFeature.distance_to_point: points at non-positive axial projection are
measured to the apex; otherwise the radial defect is scaled by cos(half_angle). -/
noncomputable def ConeFeature.distance_to_point (f : ConeFeature) (p : V3 ℝ) : ℝ :=
  let v := p - f.apex
  let cos_angle := Real.cos f.half_angle
  let proj_length := V3.dot v f.axis_direction
  if proj_length ≤ 0 then
    V3.norm v
  else
    let expected_r := proj_length * Real.tan f.half_angle
    let proj := proj_length • f.axis_direction
    let perp := v - proj
    let actual_r := V3.norm perp
    |actual_r - expected_r| * cos_angle

/-- Torus defined by center, axis, major radius and minor radius (`TorusFeature`). -/
structure TorusFeature where
  center : V3 ℝ
  axis : V3 ℝ
  major_radius : ℝ
  minor_radius : ℝ

/-- In-plane distance of a point from the torus axis, the `d_in_plane`
quantity of TorusFeature.distance_to_point. -/
noncomputable def torusInPlaneDist (f : TorusFeature) (p : V3 ℝ) : ℝ :=
  let v := p - f.center
  let proj_on_axis := (V3.dot v f.axis) • f.axis
  let v_in_plane := v - proj_on_axis
  V3.norm v_in_plane

/-- TorusFeature.distance_to_point: distance to the nearest major-circle point
minus the minor radius; points within 1e-10 of the axis take a dedicated
on-axis branch. -/
noncomputable def TorusFeature.distance_to_point (f : TorusFeature) (p : V3 ℝ) : ℝ :=
  let v := p - f.center
  let proj_on_axis := (V3.dot v f.axis) • f.axis
  let v_in_plane := v - proj_on_axis
  let d_in_plane := V3.norm v_in_plane
  if d_in_plane < 1 / 10 ^ 10 then
    |Real.sqrt (f.major_radius ^ 2 + (V3.dot v f.axis) ^ 2) - f.minor_radius|
  else
    let major_point := f.center + (f.major_radius / d_in_plane) • v_in_plane
    let dist_to_major := V3.norm (p - major_point)
    |dist_to_major - f.minor_radius|

/-
Implicit surfaces of the five primitives, written from the standard closed
forms the spec describes in section 4.4.
-/

/-- Membership in the plane `normal ⋅ (p − point) = 0`. -/
def onPlaneSurface (f : PlaneFeature) (p : V3 ℝ) : Prop :=
  V3.dot f.normal (p - f.point) = 0

/-- Membership in the cylinder surface: perpendicular distance from the axis
equals the radius. -/
def onCylinderSurface (f : CylinderFeature) (p : V3 ℝ) : Prop :=
  let v := p - f.axis_point
  let t := V3.dot v f.axis_direction
  V3.norm (v - t • f.axis_direction) = f.radius

/-- Membership in the sphere surface. -/
def onSphereSurface (f : SphereFeature) (p : V3 ℝ) : Prop :=
  V3.norm (p - f.center) = f.radius

/-- Membership in the (single-nappe) cone surface: non-negative axial
projection `t` and radial distance `t·tan(half_angle)`. -/
def onConeSurface (f : ConeFeature) (p : V3 ℝ) : Prop :=
  let v := p - f.apex
  let t := V3.dot v f.axis_direction
  0 ≤ t ∧ V3.norm (v - t • f.axis_direction) = t * Real.tan f.half_angle

/-- Membership in the torus surface `(d − R)² + h² = r²`, `d` the in-plane
distance from the axis and `h` the height along the axis. -/
def onTorusSurface (f : TorusFeature) (p : V3 ℝ) : Prop :=
  let v := p - f.center
  let h := V3.dot v f.axis
  (torusInPlaneDist f p - f.major_radius) ^ 2 + h ^ 2 = f.minor_radius ^ 2

theorem V3.eq_iff {α : Type} (a b : V3 α) : a = b ↔ a.x = b.x ∧ a.y = b.y ∧ a.z = b.z := by
  constructor
  · intro h
    rw [h]
    exact ⟨rfl, rfl, rfl⟩
  · intro h
    cases a
    cases b
    simp only at h
    simp [h.1, h.2.1, h.2.2]

theorem V3.sub_add_eq (p c u : V3 ℝ) : p - (c + u) = (p - c) - u := by
  rw [V3.eq_iff]
  refine ⟨?_, ?_, ?_⟩ <;> simp <;> ring

theorem V3.sub_zero_smul (v a : V3 ℝ) : v - (0 : ℝ) • a = v := by
  rw [V3.eq_iff]
  refine ⟨?_, ?_, ?_⟩ <;> simp

/-- Evaluation of the torus distance on the near-axis branch. -/
theorem TorusFeature.distance_eval_low (f : TorusFeature) (p : V3 ℝ)
    (hlow : torusInPlaneDist f p < 1 / 10 ^ 10) :
    f.distance_to_point p =
      |Real.sqrt (f.major_radius ^ 2 + (V3.dot (p - f.center) f.axis) ^ 2) - f.minor_radius| := by
  simp only [TorusFeature.distance_to_point]
  simp only [torusInPlaneDist] at hlow
  rw [if_pos hlow]

/-- Evaluation of the torus distance away from the axis. -/
theorem TorusFeature.distance_eval_high (f : TorusFeature) (p : V3 ℝ)
    (hhigh : ¬ torusInPlaneDist f p < 1 / 10 ^ 10) :
    f.distance_to_point p =
      |V3.norm (p - (f.center +
          (f.major_radius / torusInPlaneDist f p) •
            ((p - f.center) - (V3.dot (p - f.center) f.axis) • f.axis))) -
        f.minor_radius| := by
  simp only [TorusFeature.distance_to_point]
  simp only [torusInPlaneDist] at hhigh
  rw [if_neg hhigh]
  simp only [torusInPlaneDist]

/-- Squared distance from a point to its projected major-circle point, used
by the torus case of C1: with a unit axis, if the in-plane component `w` of
`v` has squared length `d²` then the vector `v - (R/d)•w` has squared length
`(d-R)² + t²`, `t` the axial component. -/
theorem torus_major_norm_sq (v a w : V3 ℝ) (R d t : ℝ) (haa : V3.dot a a = 1)
    (ht : V3.dot v a = t) (hw : w = v - t • a) (hd : d ≠ 0)
    (hdsq : V3.dot w w = d ^ 2) :
    V3.dot (v - (R / d) • w) (v - (R / d) • w) = (d - R) ^ 2 + t ^ 2 := by
  have hvv : V3.dot v v = d ^ 2 + t ^ 2 := by
    have h2 : V3.dot w w = V3.dot v v - t * t := by
      rw [hw]
      simp only [V3.dot_sub_left, V3.dot_sub_right, V3.dot_smul_left, V3.dot_smul_right]
      rw [V3.dot_comm a v, haa, ht]
      ring
    rw [h2] at hdsq
    nlinarith [hdsq]
  have hvw : V3.dot v w = d ^ 2 := by
    rw [hw, V3.dot_sub_right, V3.dot_smul_right, ht, hvv]
    ring
  have hexp : V3.dot (v - (R / d) • w) (v - (R / d) • w) =
      V3.dot v v - 2 * (R / d) * V3.dot v w + (R / d) ^ 2 * V3.dot w w := by
    simp only [V3.dot_sub_left, V3.dot_sub_right, V3.dot_smul_left, V3.dot_smul_right]
    rw [V3.dot_comm w v]
    ring
  rw [hexp, hvv, hvw, hdsq]
  field_simp
  ring

/-- C1 (amended): with well-formed parameters, every point exactly on a
primitive's implicit surface has distance 0 under exact real arithmetic, for
Plane, Cylinder, Sphere and Cone unconditionally; for the Torus this holds
whenever the point's in-plane distance from the axis is 0 or at least 1e-10
(the hard-coded on-axis branch threshold of the source). -/
theorem C1_distance_zero_on_surface :
    (∀ (f : PlaneFeature) (p : V3 ℝ), V3.norm f.normal = 1 → onPlaneSurface f p →
      f.distance_to_point p = 0) ∧
    (∀ (f : CylinderFeature) (p : V3 ℝ), V3.norm f.axis_direction = 1 → 0 < f.radius →
      onCylinderSurface f p → f.distance_to_point p = 0) ∧
    (∀ (f : SphereFeature) (p : V3 ℝ), 0 < f.radius → onSphereSurface f p →
      f.distance_to_point p = 0) ∧
    (∀ (f : ConeFeature) (p : V3 ℝ), V3.norm f.axis_direction = 1 →
      0 < f.half_angle → f.half_angle < Real.pi / 2 → onConeSurface f p →
      f.distance_to_point p = 0) ∧
    (∀ (f : TorusFeature) (p : V3 ℝ), V3.norm f.axis = 1 → 0 < f.major_radius →
      0 < f.minor_radius →
      (torusInPlaneDist f p = 0 ∨ 1 / 10 ^ 10 ≤ torusInPlaneDist f p) →
      onTorusSurface f p → f.distance_to_point p = 0) := by
  refine ⟨?_, ?_, ?_, ?_, ?_⟩
  · intro f p _ hs
    simp only [PlaneFeature.distance_to_point, onPlaneSurface] at *
    rw [hs, abs_zero]
  · intro f p _ _ hs
    simp only [CylinderFeature.distance_to_point, onCylinderSurface] at *
    rw [hs, sub_self, abs_zero]
  · intro f p _ hs
    simp only [SphereFeature.distance_to_point, onSphereSurface] at *
    rw [hs, sub_self, abs_zero]
  · intro f p _ _ _ hs
    simp only [ConeFeature.distance_to_point, onConeSurface] at *
    obtain ⟨ht, hr⟩ := hs
    by_cases hle : V3.dot (p - f.apex) f.axis_direction ≤ 0
    · have ht0 : V3.dot (p - f.apex) f.axis_direction = 0 := le_antisymm hle ht
      rw [if_pos hle]
      rw [ht0, V3.sub_zero_smul, zero_mul] at hr
      exact hr
    · rw [if_neg hle]
      rw [hr, sub_self, abs_zero, zero_mul]
  · intro f p hax hR hr hd hs
    simp only [onTorusSurface] at hs
    rcases hd with hd0 | hdhi
    · have hlow : torusInPlaneDist f p < 1 / 10 ^ 10 := by
        rw [hd0]; norm_num
      rw [TorusFeature.distance_eval_low f p hlow]
      rw [hd0] at hs
      have hsum : f.major_radius ^ 2 + (V3.dot (p - f.center) f.axis) ^ 2 =
          f.minor_radius ^ 2 := by nlinarith [hs]
      rw [hsum, Real.sqrt_sq hr.le, sub_self, abs_zero]
    · have hdpos : 0 < torusInPlaneDist f p := by
        have h10 : (0 : ℝ) < 1 / 10 ^ 10 := by norm_num
        linarith
      have hhigh : ¬ torusInPlaneDist f p < 1 / 10 ^ 10 := not_lt.mpr hdhi
      rw [TorusFeature.distance_eval_high f p hhigh]
      have hw : p - (f.center +
          (f.major_radius / torusInPlaneDist f p) •
            ((p - f.center) - (V3.dot (p - f.center) f.axis) • f.axis)) =
          (p - f.center) - (f.major_radius / torusInPlaneDist f p) •
            ((p - f.center) - (V3.dot (p - f.center) f.axis) • f.axis) :=
        V3.sub_add_eq _ _ _
      rw [hw]
      have haa : V3.dot f.axis f.axis = 1 := by
        have hsq := V3.sq_norm f.axis
        rw [hax] at hsq
        simpa using hsq.symm
      have hTd : torusInPlaneDist f p =
          V3.norm ((p - f.center) - (V3.dot (p - f.center) f.axis) • f.axis) := by
        rw [torusInPlaneDist]
      have hdsq : V3.dot ((p - f.center) - (V3.dot (p - f.center) f.axis) • f.axis)
          ((p - f.center) - (V3.dot (p - f.center) f.axis) • f.axis) =
          (torusInPlaneDist f p) ^ 2 := by
        rw [hTd, ← V3.sq_norm]
      have hkey := torus_major_norm_sq (p - f.center) f.axis
        ((p - f.center) - (V3.dot (p - f.center) f.axis) • f.axis)
        f.major_radius (torusInPlaneDist f p) (V3.dot (p - f.center) f.axis)
        haa rfl rfl (ne_of_gt hdpos) hdsq
      have hnorm : V3.norm ((p - f.center) - (f.major_radius / torusInPlaneDist f p) •
          ((p - f.center) - (V3.dot (p - f.center) f.axis) • f.axis)) = f.minor_radius := by
        refine V3.norm_eq_of_sq _ _ hr.le ?_
        rw [hkey]
        exact hs
      rw [hnorm, sub_self, abs_zero]

/-- C1 witness: concrete on-surface points of all five primitives evaluate to
distance 0, by instantiating C1_distance_zero_on_surface. -/
theorem C1_distance_zero_on_surface_witness :
    PlaneFeature.distance_to_point ⟨⟨0, 0, 0⟩, ⟨0, 0, 1⟩⟩ ⟨1, 2, 0⟩ = 0 ∧
    CylinderFeature.distance_to_point ⟨⟨0, 0, 0⟩, ⟨0, 0, 1⟩, 1⟩ ⟨1, 0, 5⟩ = 0 ∧
    SphereFeature.distance_to_point ⟨⟨0, 0, 0⟩, 5⟩ ⟨3, 4, 0⟩ = 0 ∧
    ConeFeature.distance_to_point ⟨⟨0, 0, 0⟩, ⟨0, 0, 1⟩, Real.pi / 4⟩ ⟨1, 0, 1⟩ = 0 ∧
    TorusFeature.distance_to_point ⟨⟨0, 0, 0⟩, ⟨0, 0, 1⟩, 2, 1⟩ ⟨3, 0, 0⟩ = 0 := by
  have he3 : V3.norm ⟨0, 0, 1⟩ = 1 :=
    V3.norm_eq_of_sq _ 1 (by norm_num) (by simp [V3.dot])
  refine ⟨?_, ?_, ?_, ?_, ?_⟩
  · refine C1_distance_zero_on_surface.1 _ _ he3 ?_
    simp [onPlaneSurface, V3.dot]
  · refine C1_distance_zero_on_surface.2.1 _ _ he3 (by norm_num) ?_
    simp only [onCylinderSurface]
    refine V3.norm_eq_of_sq _ _ (by norm_num) ?_
    simp [V3.dot]
  · refine C1_distance_zero_on_surface.2.2.1 _ _ (by norm_num) ?_
    simp only [onSphereSurface]
    refine V3.norm_eq_of_sq _ _ (by norm_num) ?_
    simp [V3.dot]
    norm_num
  · refine C1_distance_zero_on_surface.2.2.2.1 _ _ he3 (by positivity) ?_ ?_
    · have hpi := Real.pi_pos
      linarith
    · simp only [onConeSurface]
      have hdt : V3.dot ((⟨1, 0, 1⟩ : V3 ℝ) - ⟨0, 0, 0⟩) ⟨0, 0, 1⟩ = 1 := by
        simp [V3.dot]
      rw [hdt]
      refine ⟨by norm_num, ?_⟩
      rw [Real.tan_pi_div_four]
      refine V3.norm_eq_of_sq _ _ (by norm_num) ?_
      simp [V3.dot]
  · have hT : torusInPlaneDist ⟨⟨0, 0, 0⟩, ⟨0, 0, 1⟩, 2, 1⟩ ⟨3, 0, 0⟩ = 3 := by
      rw [torusInPlaneDist]
      refine V3.norm_eq_of_sq _ _ (by norm_num) ?_
      simp [V3.dot]
      norm_num
    refine C1_distance_zero_on_surface.2.2.2.2 _ _ he3 (by norm_num) (by norm_num)
      (Or.inr ?_) ?_
    · rw [hT]
      norm_num
    · simp only [onTorusSurface]
      rw [hT]
      have hdt : V3.dot ((⟨3, 0, 0⟩ : V3 ℝ) - ⟨0, 0, 0⟩) ⟨0, 0, 1⟩ = 0 := by
        simp [V3.dot]
      rw [hdt]
      norm_num

/-- C1 counterexample: a torus with positive radii and unit axis, and a point
exactly on its surface whose in-plane distance from the axis lies strictly
between 0 and 1e-10; the near-axis branch of distance_to_point then returns a
nonzero value, so the claim as stated (distance exactly 0 for every on-surface
point) is false. -/
theorem C1_distance_zero_on_surface_counterexample :
    V3.norm ((⟨0, 0, 1⟩ : V3 ℝ)) = 1 ∧
    (0 : ℝ) < 1 / 10 ^ 11 ∧ (0 : ℝ) < 5 / 10 ^ 11 ∧
    onTorusSurface ⟨⟨0, 0, 0⟩, ⟨0, 0, 1⟩, 1 / 10 ^ 11, 5 / 10 ^ 11⟩
      ⟨5 / 10 ^ 11, 0, 3 / 10 ^ 11⟩ ∧
    TorusFeature.distance_to_point ⟨⟨0, 0, 0⟩, ⟨0, 0, 1⟩, 1 / 10 ^ 11, 5 / 10 ^ 11⟩
      ⟨5 / 10 ^ 11, 0, 3 / 10 ^ 11⟩ ≠ 0 := by
  have he3 : V3.norm ⟨0, 0, 1⟩ = 1 :=
    V3.norm_eq_of_sq _ 1 (by norm_num) (by simp [V3.dot])
  have hdt : V3.dot ((⟨5 / 10 ^ 11, 0, 3 / 10 ^ 11⟩ : V3 ℝ) - ⟨0, 0, 0⟩) ⟨0, 0, 1⟩ =
      3 / 10 ^ 11 := by
    simp [V3.dot]
  have hT : torusInPlaneDist ⟨⟨0, 0, 0⟩, ⟨0, 0, 1⟩, 1 / 10 ^ 11, 5 / 10 ^ 11⟩
      ⟨5 / 10 ^ 11, 0, 3 / 10 ^ 11⟩ = 5 / 10 ^ 11 := by
    rw [torusInPlaneDist]
    refine V3.norm_eq_of_sq _ _ (by norm_num) ?_
    simp [V3.dot]
    norm_num
  refine ⟨he3, by norm_num, by norm_num, ?_, ?_⟩
  · simp only [onTorusSurface]
    rw [hT, hdt]
    norm_num
  · have hlow : torusInPlaneDist ⟨⟨0, 0, 0⟩, ⟨0, 0, 1⟩, 1 / 10 ^ 11, 5 / 10 ^ 11⟩
        ⟨5 / 10 ^ 11, 0, 3 / 10 ^ 11⟩ < 1 / 10 ^ 10 := by
      rw [hT]
      norm_num
    rw [TorusFeature.distance_eval_low _ _ hlow, hdt]
    intro habs
    rw [abs_eq_zero, sub_eq_zero] at habs
    have hsq := Real.sq_sqrt (show (0 : ℝ) ≤ ((1 : ℝ) / 10 ^ 11) ^ 2 + ((3 : ℝ) / 10 ^ 11) ^ 2 by
      positivity)
    rw [habs] at hsq
    norm_num at hsq

/-
Feature recognizer internals, from
src/stl-to-cad/src/stl_to_cad/recognition/feature_recognizer.py.

The scipy/numpy solver calls inside the refinement helpers are not pure
functions of the inputs alone (iterative optimisation); their outcome is
therefore passed explicitly: `none` models the call raising, `some r` models
it returning result `r`.
-/

/-- Componentwise mean of a point list, `np.mean(points, axis=0)`. -/
noncomputable def V3.meanR (l : List (V3 ℝ)) : V3 ℝ :=
  ⟨(l.map V3.x).sum / l.length, (l.map V3.y).sum / l.length, (l.map V3.z).sum / l.length⟩

/-- FeatureRecognizer._cone_distances: vectorized point-to-cone distances.
Unlike ConeFeature.distance_to_point, axial projections are clamped from
below to 1e-10 before use (`np.maximum(proj_lengths, 1e-10)`). -/
noncomputable def FeatureRecognizer.cone_distances (points : List (V3 ℝ))
    (apex axis : V3 ℝ) (half_angle : ℝ) : List ℝ :=
  points.map fun pt =>
    let v := pt - apex
    let proj_length := max (V3.dot v axis) (1 / 10 ^ 10)
    let expected_r := proj_length * Real.tan half_angle
    let proj := proj_length • axis
    let perp := v - proj
    let actual_r := V3.norm perp
    |actual_r - expected_r| * Real.cos half_angle

/-- FeatureRecognizer._refine_plane_fit: centroid plus SVD-based normal.
The `np.linalg.svd` outcome is passed as `svdLastRow` (the last row of `vh`,
computed on the centered points); the source wraps this call in no
try/except, so a raising SVD propagates (`Except.error`). -/
noncomputable def FeatureRecognizer.refine_plane_fit (points : List (V3 ℝ))
    (svdLastRow : Option (V3 ℝ)) : Except Unit (V3 ℝ × V3 ℝ) :=
  match svdLastRow with
  | none => .error ()
  | some vh =>
    let centroid := V3.meanR points
    let normal := if vh.z < 0 then -vh else vh
    .ok (centroid, normal)

/-- FeatureRecognizer._refine_cylinder_fit: the whole least-squares solve sits
in `try: ... except: return center, axis, radius`; on success the solution is
unpacked, the axis renormalized (`refined_axis / np.linalg.norm(...)`,
modelled as the inverse-norm scalar multiple) and the radius made
non-negative. -/
noncomputable def FeatureRecognizer.refine_cylinder_fit (points : List (V3 ℝ))
    (center axis : V3 ℝ) (radius : ℝ)
    (lsq : Option (ℝ × ℝ × ℝ × ℝ × ℝ × ℝ × ℝ)) : Except Unit (V3 ℝ × V3 ℝ × ℝ) :=
  match lsq with
  | none => .ok (center, axis, radius)
  | some (cx, cy, cz, ax, ay, az, r) =>
    let refined_axis : V3 ℝ := ⟨ax, ay, az⟩
    .ok (⟨cx, cy, cz⟩, (1 / V3.norm refined_axis) • refined_axis, |r|)

/-- FeatureRecognizer._refine_sphere_fit: same try/except fallback shape as
the cylinder refinement. -/
noncomputable def FeatureRecognizer.refine_sphere_fit (points : List (V3 ℝ))
    (center : V3 ℝ) (radius : ℝ)
    (lsq : Option (ℝ × ℝ × ℝ × ℝ)) : Except Unit (V3 ℝ × ℝ) :=
  match lsq with
  | none => .ok (center, radius)
  | some (cx, cy, cz, r) => .ok (⟨cx, cy, cz⟩, |r|)

/-- C7 (amended): cylinder and sphere refinement never propagate an error and
fall back to the un-refined RANSAC hypothesis when the least-squares solve
fails; the plane refinement, contrary to the claim, has no such fallback — a
failing SVD propagates out of _refine_plane_fit. -/
theorem C7_refinement_fallback :
    (∀ (points : List (V3 ℝ)) (center axis : V3 ℝ) (radius : ℝ)
        (lsq : Option (ℝ × ℝ × ℝ × ℝ × ℝ × ℝ × ℝ)),
      (lsq = none →
        FeatureRecognizer.refine_cylinder_fit points center axis radius lsq =
          .ok (center, axis, radius)) ∧
      ∃ res, FeatureRecognizer.refine_cylinder_fit points center axis radius lsq = .ok res) ∧
    (∀ (points : List (V3 ℝ)) (center : V3 ℝ) (radius : ℝ)
        (lsq : Option (ℝ × ℝ × ℝ × ℝ)),
      (lsq = none →
        FeatureRecognizer.refine_sphere_fit points center radius lsq =
          .ok (center, radius)) ∧
      ∃ res, FeatureRecognizer.refine_sphere_fit points center radius lsq = .ok res) ∧
    (∀ points : List (V3 ℝ),
      FeatureRecognizer.refine_plane_fit points none = .error ()) := by
  refine ⟨?_, ?_, ?_⟩
  · intro points center axis radius lsq
    constructor
    · rintro rfl
      rfl
    · cases lsq with
      | none => exact ⟨_, rfl⟩
      | some x =>
        obtain ⟨cx, cy, cz, ax, ay, az, r⟩ := x
        exact ⟨_, rfl⟩
  · intro points center radius lsq
    constructor
    · rintro rfl
      rfl
    · cases lsq with
      | none => exact ⟨_, rfl⟩
      | some x =>
        obtain ⟨cx, cy, cz, r⟩ := x
        exact ⟨_, rfl⟩
  · intro points
    rfl

/-- C7 witness: failing solver outcomes on concrete inputs return the
un-refined cylinder and sphere hypotheses. -/
theorem C7_refinement_fallback_witness :
    FeatureRecognizer.refine_cylinder_fit [] ⟨0, 0, 0⟩ ⟨0, 0, 1⟩ 1 none =
      .ok (⟨0, 0, 0⟩, ⟨0, 0, 1⟩, 1) ∧
    FeatureRecognizer.refine_sphere_fit [] ⟨0, 0, 0⟩ 1 none = .ok (⟨0, 0, 0⟩, 1) :=
  ⟨(C7_refinement_fallback.1 [] ⟨0, 0, 0⟩ ⟨0, 0, 1⟩ 1 none).1 rfl,
    (C7_refinement_fallback.2.1 [] ⟨0, 0, 0⟩ 1 none).1 rfl⟩

/-- C7 counterexample: a failing SVD on the plane refinement path propagates
an error instead of falling back, so the claim that the fallback covers every
refinement path (including the plane's SVD refit) is false. -/
theorem C7_refinement_fallback_counterexample :
    FeatureRecognizer.refine_plane_fit [⟨1, 2, 3⟩] none = .error () := rfl

/-- C9 (amended): the vectorized cone distance agrees with
ConeFeature.distance_to_point on a single point whenever the axial projection
is at least the clamp floor 1e-10; below that (in particular for every t ≤ 0)
the two formulas differ in general. -/
theorem C9_cone_distances_match_primitive (apex axis : V3 ℝ) (half_angle : ℝ) (p : V3 ℝ)
    (ht : 1 / 10 ^ 10 ≤ V3.dot (p - apex) axis) :
    FeatureRecognizer.cone_distances [p] apex axis half_angle =
      [ConeFeature.distance_to_point ⟨apex, axis, half_angle⟩ p] := by
  simp only [FeatureRecognizer.cone_distances, List.map_cons, List.map_nil,
    ConeFeature.distance_to_point]
  have hmax : max (V3.dot (p - apex) axis) (1 / 10 ^ 10) = V3.dot (p - apex) axis :=
    max_eq_left ht
  have hpos : ¬ V3.dot (p - apex) axis ≤ 0 := by
    have h10 : (0 : ℝ) < 1 / 10 ^ 10 := by norm_num
    exact not_le.mpr (lt_of_lt_of_le h10 ht)
  rw [hmax, if_neg hpos]

/-- C9 witness: concrete agreement at a point with axial projection 1. -/
theorem C9_cone_distances_match_primitive_witness :
    FeatureRecognizer.cone_distances [⟨1, 0, 1⟩] ⟨0, 0, 0⟩ ⟨0, 0, 1⟩ (Real.pi / 4) =
      [ConeFeature.distance_to_point ⟨⟨0, 0, 0⟩, ⟨0, 0, 1⟩, Real.pi / 4⟩ ⟨1, 0, 1⟩] := by
  refine C9_cone_distances_match_primitive ⟨0, 0, 0⟩ ⟨0, 0, 1⟩ (Real.pi / 4) ⟨1, 0, 1⟩ ?_
  have hdt : V3.dot ((⟨1, 0, 1⟩ : V3 ℝ) - ⟨0, 0, 0⟩) ⟨0, 0, 1⟩ = 1 := by
    simp [V3.dot]
  rw [hdt]
  norm_num

/-- C9 counterexample: at a point behind the apex (axial projection −1), the
primitive measures the distance to the apex (here 1) while the vectorized
recognizer formula clamps the projection to 1e-10 and returns √2/2, so the
claimed equality for t ≤ 0 is false. -/
theorem C9_cone_distances_match_primitive_counterexample :
    FeatureRecognizer.cone_distances [⟨0, 0, -1⟩] ⟨0, 0, 0⟩ ⟨0, 0, 1⟩ (Real.pi / 4) ≠
      [ConeFeature.distance_to_point ⟨⟨0, 0, 0⟩, ⟨0, 0, 1⟩, Real.pi / 4⟩ ⟨0, 0, -1⟩] := by
  have hdt : V3.dot ((⟨0, 0, -1⟩ : V3 ℝ) - ⟨0, 0, 0⟩) ⟨0, 0, 1⟩ = -1 := by
    simp [V3.dot]
  have hmax : max (-1 : ℝ) (1 / 10 ^ 10) = 1 / 10 ^ 10 := max_eq_right (by norm_num)
  have hperp : V3.norm (((⟨0, 0, -1⟩ : V3 ℝ) - ⟨0, 0, 0⟩) - ((1 : ℝ) / 10 ^ 10) • ⟨0, 0, 1⟩) =
      1 + 1 / 10 ^ 10 := by
    refine V3.norm_eq_of_sq _ _ (by norm_num) ?_
    simp [V3.dot]
    ring
  have hnv : V3.norm ((⟨0, 0, -1⟩ : V3 ℝ) - ⟨0, 0, 0⟩) = 1 := by
    refine V3.norm_eq_of_sq _ _ (by norm_num) ?_
    simp [V3.dot]
  simp only [FeatureRecognizer.cone_distances, List.map_cons, List.map_nil,
    ConeFeature.distance_to_point]
  rw [hdt, hmax, if_pos (show (-1 : ℝ) ≤ 0 by norm_num), hperp, hnv,
    Real.tan_pi_div_four, Real.cos_pi_div_four]
  intro h
  rw [List.cons.injEq] at h
  have h1 := h.1
  have h2 : Real.sqrt 2 = 2 := by
    have habs : |1 + 1 / 10 ^ 10 - 1 / 10 ^ 10 * 1| = (1 : ℝ) := by
      norm_num
    rw [habs, one_mul] at h1
    linarith
  have h4 := Real.sq_sqrt (show (0 : ℝ) ≤ 2 by norm_num)
  rw [h2] at h4
  norm_num at h4

/-
STL parser, from src/stl-to-cad/src/stl_to_cad/parsers/stl_parser.py.

File bytes are modelled as `List ℕ` (each entry one byte) and Python strings
as ASCII byte lists.  Float content is held in `ℚ`: every finite IEEE float
is rational, and the claims about the parser only involve field operations
and rounding, so the embedding stays computable and exact.
-/

/-- Whitespace bytes recognised by Python str.strip / str.split. -/
def isWSByte (c : ℕ) : Bool :=
  decide (c = 32) || decide (c = 9) || decide (c = 10) || decide (c = 13) ||
    decide (c = 11) || decide (c = 12)

/-- Python str.strip(): drop leading and trailing whitespace. -/
def stripBytes (l : List ℕ) : List ℕ :=
  ((l.dropWhile isWSByte).reverse.dropWhile isWSByte).reverse

/-- Python str.lower() on ASCII bytes. -/
def lowerBytes (l : List ℕ) : List ℕ :=
  l.map fun c => if 65 ≤ c ∧ c ≤ 90 then c + 32 else c

/-- Python str.split() with no separator: whitespace-delimited non-empty words. -/
def splitWords (l : List ℕ) : List (List ℕ) :=
  (l.splitOnP isWSByte).filter fun w => !w.isEmpty

/-- ASCII bytes of "solid". -/
def strSolid : List ℕ := [115, 111, 108, 105, 100]

/-- ASCII bytes of "facet". -/
def strFacet : List ℕ := [102, 97, 99, 101, 116]

/-- ASCII bytes of "normal". -/
def strNormal : List ℕ := [110, 111, 114, 109, 97, 108]

/-- ASCII bytes of "vertex". -/
def strVertex : List ℕ := [118, 101, 114, 116, 101, 120]

/-- ASCII bytes of "endfacet". -/
def strEndfacet : List ℕ := [101, 110, 100, 102, 97, 99, 101, 116]

/-- Decimal digit test on a byte. -/
def isDigitByte (c : ℕ) : Bool :=
  decide (48 ≤ c) && decide (c ≤ 57)

/-- Value of a digit run. -/
def digitsVal (l : List ℕ) : ℕ :=
  l.foldl (fun a c => 10 * a + (c - 48)) 0

/-- Model of Python float() on the decimal literal forms
`[+-]digits[.digits][(e|E)[+-]digits]` (also `.digits`); the number is parsed
exactly into ℚ.  The non-finite literals inf/infinity/nan, which have no ℚ
counterpart, and digit-group underscores are not modelled; STL geometry data
never contains them. -/
def pyFloat (tok : List ℕ) : Option ℚ :=
  let t0 := stripBytes tok
  let sgnrest : ℚ × List ℕ :=
    match t0 with
    | 43 :: r => (1, r)
    | 45 :: r => (-1, r)
    | r => (1, r)
  let sgn := sgnrest.1
  let t1 := sgnrest.2
  let intd := t1.takeWhile isDigitByte
  let r1 := t1.dropWhile isDigitByte
  let fracrest : List ℕ × List ℕ :=
    match r1 with
    | 46 :: r => (r.takeWhile isDigitByte, r.dropWhile isDigitByte)
    | r => ([], r)
  let fracd := fracrest.1
  let r2 := fracrest.2
  if intd.isEmpty && fracd.isEmpty then none
  else
    let mant : ℚ := sgn * ((digitsVal intd : ℚ) + (digitsVal fracd : ℚ) / 10 ^ fracd.length)
    match r2 with
    | [] => some mant
    | e :: r3 =>
      if e = 101 ∨ e = 69 then
        let esgnrest : ℤ × List ℕ :=
          match r3 with
          | 43 :: r => (1, r)
          | 45 :: r => (-1, r)
          | r => (1, r)
        let ed := esgnrest.2.takeWhile isDigitByte
        let r5 := esgnrest.2.dropWhile isDigitByte
        if ed.isEmpty || !r5.isEmpty then none
        else some (mant * (10 : ℚ) ^ (esgnrest.1 * (digitsVal ed : ℤ)))
      else none

/-- Parsed STL mesh (`STLMesh`): vertices, face index triples, per-face
normals and a display name (ASCII bytes). -/
structure STLMesh where
  vertices : List (V3 ℚ)
  faces : List (ℕ × ℕ × ℕ)
  normals : List (V3 ℚ)
  name : List ℕ
  deriving DecidableEq

/-- np.min of a list (meaningful on non-empty lists, as in numpy). -/
def listMinQ (l : List ℚ) : ℚ :=
  l.foldl min (l.headD 0)

/-- np.max of a list. -/
def listMaxQ (l : List ℚ) : ℚ :=
  l.foldl max (l.headD 0)

/-- STLMesh.bounds, lower corner: `self.vertices.min(axis=0)` (meaningful on
non-empty meshes, as in numpy). -/
def STLMesh.boundsMin (m : STLMesh) : V3 ℚ :=
  ⟨listMinQ (m.vertices.map V3.x), listMinQ (m.vertices.map V3.y),
    listMinQ (m.vertices.map V3.z)⟩

/-- STLMesh.bounds, upper corner: `self.vertices.max(axis=0)`. -/
def STLMesh.boundsMax (m : STLMesh) : V3 ℚ :=
  ⟨listMaxQ (m.vertices.map V3.x), listMaxQ (m.vertices.map V3.y),
    listMaxQ (m.vertices.map V3.z)⟩

/-- The STLParser configuration: vertex welding flag and tolerance. -/
structure STLParser where
  merge_vertices : Bool := true
  merge_tolerance : ℚ := 1 / 10 ^ 6

/-- Substring test on byte lists, Python's `needle in haystack`. -/
def hasSubstring : List ℕ → List ℕ → Bool
  | needle, [] => needle.isEmpty
  | needle, h :: t => needle.isPrefixOf (h :: t) || hasSubstring needle t

/-- STLParser._is_ascii: the header must decode as ASCII and start (after
stripping, lowercased) with "solid", and the first 1000 bytes must decode and
contain "facet" or "vertex". -/
def STLParser.is_ascii (bytes : List ℕ) : Bool :=
  let header := bytes.take 80
  if header.all (fun b => decide (b < 128)) then
    let header_str := lowerBytes (stripBytes header)
    if strSolid.isPrefixOf header_str then
      let content := bytes.take 1000
      if content.all (fun b => decide (b < 128)) then
        let content_str := lowerBytes content
        hasSubstring strFacet content_str || hasSubstring strVertex content_str
      else false
    else false
  else false

/-- Line-processing state of STLParser._parse_ascii. -/
structure AsciiState where
  triangles : List (V3 ℚ × V3 ℚ × V3 ℚ)
  normals : List (V3 ℚ)
  current_normal : Option (V3 ℚ)
  current_vertices : List (V3 ℚ)
  name : List ℕ

/-- One iteration of the line loop of STLParser._parse_ascii; `none` models a
float() ValueError propagating. -/
def processAsciiLine (st : AsciiState) (line : List ℕ) : Option AsciiState :=
  let parts := splitWords line
  match parts with
  | [] => some st
  | kw :: _ =>
    let keyword := lowerBytes kw
    if keyword = strFacet ∧ 5 ≤ parts.length ∧ lowerBytes (parts.getD 1 []) = strNormal then
      match pyFloat (parts.getD 2 []), pyFloat (parts.getD 3 []), pyFloat (parts.getD 4 []) with
      | some a, some b, some c => some { st with current_normal := some ⟨a, b, c⟩ }
      | _, _, _ => none
    else if keyword = strVertex ∧ 4 ≤ parts.length then
      match pyFloat (parts.getD 1 []), pyFloat (parts.getD 2 []), pyFloat (parts.getD 3 []) with
      | some a, some b, some c =>
          some { st with current_vertices := st.current_vertices ++ [⟨a, b, c⟩] }
      | _, _, _ => none
    else if keyword = strEndfacet then
      match st.current_vertices, st.current_normal with
      | [v1, v2, v3], some n =>
          some { st with triangles := st.triangles ++ [(v1, v2, v3)],
                         normals := st.normals ++ [n],
                         current_normal := none, current_vertices := [] }
      | _, _ => some { st with current_normal := none, current_vertices := [] }
    else if keyword = strSolid ∧ 2 ≤ parts.length then
      some { st with name := List.intercalate [32] (parts.drop 1) }
    else some st

/-- STLParser._parse_ascii: decode, split into lines, run the facet
accumulator, flatten triangles into vertices with faces [0,1,2],[3,4,5],… -/
def STLParser.parse_ascii (bytes : List ℕ) (name0 : List ℕ) : Option STLMesh :=
  if bytes.all (fun b => decide (b < 128)) then
    let lines := (stripBytes bytes).splitOn 10
    match lines.foldlM processAsciiLine ⟨[], [], none, [], name0⟩ with
    | none => none
    | some st =>
      let vertices := (st.triangles.map fun t => [t.1, t.2.1, t.2.2]).flatten
      let faces := (List.range st.triangles.length).map fun i => (3 * i, 3 * i + 1, 3 * i + 2)
      some ⟨vertices, faces, st.normals, st.name⟩
  else none

/-- Trailing-NUL strip, `bytes.rstrip(b"\x00")`. -/
def rstripNull (l : List ℕ) : List ℕ :=
  (l.reverse.dropWhile fun b => decide (b = 0)).reverse

/-- Python bytes.decode("ascii", errors="ignore"): non-ASCII bytes dropped. -/
def filterAsciiBytes (l : List ℕ) : List ℕ :=
  l.filter fun b => decide (b < 128)

/-- Little-endian byte-list value (`struct.unpack("<I", ...)` on 4 bytes). -/
def leNat (l : List ℕ) : ℕ :=
  l.foldr (fun b acc => b + 256 * acc) 0

/-- IEEE-754 binary32 decoding of a 32-bit word into ℚ.  Non-finite values
(exponent 255) have no ℚ counterpart and are mapped to 0; no claim touches
the numeric value of parsed binary vertices. -/
def f32ToRat (w : ℕ) : ℚ :=
  let s : ℕ := w / 2 ^ 31 % 2
  let e : ℕ := w / 2 ^ 23 % 2 ^ 8
  let m : ℕ := w % 2 ^ 23
  let sgn : ℚ := if s = 1 then -1 else 1
  if e = 0 then sgn * ((m : ℚ) / 2 ^ 23) * (2 : ℚ) ^ (-(126 : ℤ))
  else if e = 255 then 0
  else sgn * (1 + (m : ℚ) / 2 ^ 23) * (2 : ℚ) ^ ((e : ℤ) - 127)

/-- Three little-endian binary32 floats from 12 bytes (`struct.unpack("<3f", ...)`). -/
def decodeF32x3 (l : List ℕ) : V3 ℚ :=
  ⟨f32ToRat (leNat (l.take 4)), f32ToRat (leNat ((l.drop 4).take 4)),
    f32ToRat (leNat ((l.drop 8).take 4))⟩

/-- Model of `struct.unpack(fmt, f.read(n))`: near end-of-file `f.read(n)`
returns the remaining bytes and `struct.unpack` raises unless exactly `n`
bytes arrive. -/
def readExact (n : ℕ) (l : List ℕ) : Option (List ℕ × List ℕ) :=
  if n ≤ l.length then some (l.take n, l.drop n) else none

/-- Triangle-reading loop of STLParser._parse_binary: per triangle one
12-byte normal, three 12-byte vertices (each a `struct.unpack` that raises on
short reads), then 2 attribute bytes read and discarded (`f.read(2)` never
raises, even at end-of-file). -/
def readTriangles : ℕ → List ℕ → Option (List (V3 ℚ × (V3 ℚ × V3 ℚ × V3 ℚ)))
  | 0, _ => some []
  | k + 1, l =>
    match readExact 12 l with
    | none => none
    | some (nb, l1) =>
      match readExact 12 l1 with
      | none => none
      | some (b1, l2) =>
        match readExact 12 l2 with
        | none => none
        | some (b2, l3) =>
          match readExact 12 l3 with
          | none => none
          | some (b3, l4) =>
            match readTriangles k (l4.drop 2) with
            | none => none
            | some rest =>
              some ((decodeF32x3 nb, (decodeF32x3 b1, decodeF32x3 b2, decodeF32x3 b3)) :: rest)

/-- STLParser._parse_binary: skip the 80-byte header (optionally harvesting a
name from its non-NUL ASCII content), read the little-endian 32-bit triangle
count, then the triangle records. -/
def STLParser.parse_binary (bytes : List ℕ) (name0 : List ℕ) : Option STLMesh :=
  let header := bytes.take 80
  let rest0 := bytes.drop 80
  let header_str := stripBytes (filterAsciiBytes (rstripNull header))
  let name := if header_str.isEmpty then name0 else header_str
  match readExact 4 rest0 with
  | none => none
  | some (cnt, rest1) =>
    let num_triangles := leNat cnt
    match readTriangles num_triangles rest1 with
    | none => none
    | some tris =>
      let vertices := (tris.map fun t => [t.2.1, t.2.2.1, t.2.2.2]).flatten
      let faces := (List.range num_triangles).map fun i => (3 * i, 3 * i + 1, 3 * i + 2)
      let normals := tris.map fun t => t.1
      some ⟨vertices, faces, normals, name⟩

/-- np.round: round half to even, exactly on ℚ. -/
def roundHalfEven (q : ℚ) : ℤ :=
  let f := ⌊q⌋
  let r := q - f
  if r < 1 / 2 then f
  else if 1 / 2 < r then f + 1
  else if f % 2 = 0 then f else f + 1

/-- One vertex row of `np.round(mesh.vertices * scale).astype(np.int64)`. -/
def quantize (scale : ℚ) (v : V3 ℚ) : ℤ × ℤ × ℤ :=
  (roundHalfEven (v.x * scale), roundHalfEven (v.y * scale), roundHalfEven (v.z * scale))

/-- Lexicographic row order used by np.unique(axis=0). -/
def lexLe (a b : ℤ × ℤ × ℤ) : Prop :=
  a.1 < b.1 ∨ (a.1 = b.1 ∧ (a.2.1 < b.2.1 ∨ (a.2.1 = b.2.1 ∧ a.2.2 ≤ b.2.2)))

instance : DecidableRel lexLe := fun a b => by
  unfold lexLe
  infer_instance

instance : IsTotal (ℤ × ℤ × ℤ) lexLe := ⟨by
  intro a b
  unfold lexLe
  omega⟩

instance : IsTrans (ℤ × ℤ × ℤ) lexLe := ⟨by
  intro a b c
  unfold lexLe
  omega⟩

instance : IsAntisymm (ℤ × ℤ × ℤ) lexLe := ⟨by
  intro a b hab hba
  obtain ⟨a1, a2, a3⟩ := a
  obtain ⟨b1, b2, b3⟩ := b
  simp only [lexLe] at hab hba
  simp only [Prod.mk.injEq]
  omega⟩

/-- np.unique(rows, axis=0): the distinct rows in sorted order. -/
def npUniqueRows (rows : List (ℤ × ℤ × ℤ)) : List (ℤ × ℤ × ℤ) :=
  List.insertionSort lexLe rows.dedup

/-- STLParser._merge_duplicate_vertices: quantize each vertex to the
tolerance grid, keep (per distinct quantized row, in np.unique's sorted
order) the vertex at the row's first occurrence, and remap face indices
through the inverse mapping. -/
def STLParser.merge_duplicate_vertices (merge_tolerance : ℚ) (mesh : STLMesh) : STLMesh :=
  let scale := 1 / merge_tolerance
  let rounded := mesh.vertices.map (quantize scale)
  let uniq := npUniqueRows rounded
  let unique_vertices := uniq.map fun q => mesh.vertices.getD (rounded.indexOf q) ⟨0, 0, 0⟩
  let inverse := fun i => uniq.indexOf (rounded.getD i (0, 0, 0))
  let new_faces := mesh.faces.map fun f => (inverse f.1, inverse f.2.1, inverse f.2.2)
  ⟨unique_vertices, new_faces, mesh.normals, mesh.name⟩

/-- Parse-failure conditions of the spec's error taxonomy: `notFound` models
the FileNotFoundError raise, `formatError` any decoding exception
(UnicodeDecodeError / ValueError / struct.error) propagating out of parse. -/
inductive STLParseError where
  | notFound
  | formatError
  deriving DecidableEq

/-- STLParser.parse: the filesystem read is modelled by passing the file's
content as `Option (List ℕ)` (`none` = missing path) together with the
path's stem (used as default mesh name). -/
def STLParser.parse (parser : STLParser) (content : Option (List ℕ)) (stem : List ℕ) :
    Except STLParseError STLMesh :=
  match content with
  | none => .error .notFound
  | some bytes =>
    let parsed :=
      if STLParser.is_ascii bytes then STLParser.parse_ascii bytes stem
      else STLParser.parse_binary bytes stem
    match parsed with
    | none => .error .formatError
    | some mesh =>
      .ok (if parser.merge_vertices then
            STLParser.merge_duplicate_vertices parser.merge_tolerance mesh
          else mesh)

/-- Declared 32-bit little-endian triangle count of a binary STL byte string. -/
def declaredTriangleCount (bytes : List ℕ) : ℕ :=
  leNat ((bytes.drop 80).take 4)

/-- indexOf on a cons cell, stated for any lawful BEq instance (the welding
model's index lookups elaborate with the product BEq instance). -/
theorem indexOf_cons_eval {α : Type} [BEq α] (b a : α) (t : List α) :
    (b :: t).indexOf a = if b == a then 0 else t.indexOf a + 1 := by
  rw [List.indexOf, List.findIdx_cons]
  cases b == a <;> simp

theorem indexOf_lt_length_of_mem {α : Type} [BEq α] [LawfulBEq α] {a : α} {l : List α}
    (h : a ∈ l) : l.indexOf a < l.length := by
  induction l with
  | nil => cases h
  | cons b t ih =>
    rw [indexOf_cons_eval]
    by_cases hba : b == a
    · simp [hba]
    · have hmem : a ∈ t := by
        rcases List.mem_cons.mp h with he | ht
        · subst he
          exact absurd (beq_self_eq_true a) hba
        · exact ht
      simp only [hba, if_false, List.length_cons]
      exact Nat.succ_lt_succ (ih hmem)

theorem getElem_indexOf_of_mem {α : Type} [BEq α] [LawfulBEq α] {a : α} {l : List α}
    (h : a ∈ l) (hlt : l.indexOf a < l.length) : l[l.indexOf a] = a := by
  induction l with
  | nil => cases h
  | cons b t ih =>
    by_cases hba : b == a
    · have h0 : (b :: t).indexOf a = 0 := by rw [indexOf_cons_eval, if_pos hba]
      simp only [h0, List.getElem_cons_zero]
      exact eq_of_beq hba
    · have hmem : a ∈ t := by
        rcases List.mem_cons.mp h with he | ht
        · subst he
          exact absurd (beq_self_eq_true a) hba
        · exact ht
      have hS : (b :: t).indexOf a = t.indexOf a + 1 := by rw [indexOf_cons_eval, if_neg hba]
      simp only [hS, List.getElem_cons_succ]
      exact ih hmem (indexOf_lt_length_of_mem hmem)

theorem npUniqueRows_nodup (rows : List (ℤ × ℤ × ℤ)) : (npUniqueRows rows).Nodup :=
  (List.perm_insertionSort lexLe rows.dedup).symm.nodup (List.nodup_dedup rows)

theorem npUniqueRows_sorted (rows : List (ℤ × ℤ × ℤ)) :
    List.Sorted lexLe (npUniqueRows rows) :=
  List.sorted_insertionSort lexLe rows.dedup

theorem mem_npUniqueRows {q : ℤ × ℤ × ℤ} {rows : List (ℤ × ℤ × ℤ)} :
    q ∈ npUniqueRows rows ↔ q ∈ rows := by
  rw [npUniqueRows, (List.perm_insertionSort lexLe rows.dedup).mem_iff, List.mem_dedup]

theorem npUniqueRows_eq_self {rows : List (ℤ × ℤ × ℤ)} (hs : List.Sorted lexLe rows)
    (hn : rows.Nodup) : npUniqueRows rows = rows := by
  rw [npUniqueRows, List.dedup_eq_self.mpr hn]
  exact List.eq_of_perm_of_sorted (List.perm_insertionSort lexLe rows) 
    (List.sorted_insertionSort lexLe rows) hs

/-- C3: vertex welding is idempotent.  Welding a welded mesh (any merge
tolerance, any mesh whose face indices are in range) leaves vertices, faces,
normals and name unchanged. -/
theorem C3_weld_idempotent (tol : ℚ) (m : STLMesh)
    (hfaces : ∀ f ∈ m.faces, f.1 < m.vertices.length ∧ f.2.1 < m.vertices.length ∧
      f.2.2 < m.vertices.length) :
    STLParser.merge_duplicate_vertices tol (STLParser.merge_duplicate_vertices tol m) =
      STLParser.merge_duplicate_vertices tol m := by
  set R := m.vertices.map (quantize (1 / tol)) with hR
  set U := npUniqueRows R with hU
  have hUnodup : U.Nodup := npUniqueRows_nodup R
  have hUsorted : List.Sorted lexLe U := npUniqueRows_sorted R
  have hRlen : R.length = m.vertices.length := List.length_map _ _
  set V1 : List (V3 ℚ) := U.map (fun q => m.vertices.getD (R.indexOf q) ⟨0, 0, 0⟩) with hV1
  set F1 : List (ℕ × ℕ × ℕ) := m.faces.map (fun f =>
    (U.indexOf (R.getD f.1 (0, 0, 0)), U.indexOf (R.getD f.2.1 (0, 0, 0)),
      U.indexOf (R.getD f.2.2 (0, 0, 0)))) with hF1
  have hV1len : V1.length = U.length := List.length_map _ _
  have hm1 : STLParser.merge_duplicate_vertices tol m = ⟨V1, F1, m.normals, m.name⟩ := rfl
  have hquant : V1.map (quantize (1 / tol)) = U := by
    apply List.ext_getElem
    · rw [List.length_map, hV1len]
    · intro i h1 h2
      have hiU : i < U.length := by
        rw [List.length_map, hV1len] at h1
        exact h1
      rw [List.getElem_map]
      have hV1i : V1[i] = m.vertices.getD (R.indexOf U[i]) ⟨0, 0, 0⟩ := List.getElem_map _
      rw [hV1i]
      have hmem : U[i] ∈ R := mem_npUniqueRows.mp (List.getElem_mem hiU)
      have hidx : R.indexOf U[i] < R.length := indexOf_lt_length_of_mem hmem
      rw [List.getD_eq_getElem m.vertices _ (hRlen ▸ hidx)]
      have hcal : quantize (1 / tol) m.vertices[R.indexOf U[i]] = R[R.indexOf U[i]] :=
        (List.getElem_map _).symm
      rw [hcal, getElem_indexOf_of_mem hmem hidx]
  have hcomp : ∀ c : ℕ, c < m.vertices.length →
      U.indexOf (U.getD (U.indexOf (R.getD c (0, 0, 0))) (0, 0, 0)) =
        U.indexOf (R.getD c (0, 0, 0)) := by
    intro c hc
    have hmemR : R.getD c (0, 0, 0) ∈ R := by
      rw [List.getD_eq_getElem R _ (hRlen ▸ hc)]
      exact List.getElem_mem _
    have hmemU : R.getD c (0, 0, 0) ∈ U := mem_npUniqueRows.mpr hmemR
    have hidx : U.indexOf (R.getD c (0, 0, 0)) < U.length := indexOf_lt_length_of_mem hmemU
    have hgd : U.getD (U.indexOf (R.getD c (0, 0, 0))) (0, 0, 0) = R.getD c (0, 0, 0) := by
      rw [List.getD_eq_getElem U _ hidx]
      exact getElem_indexOf_of_mem hmemU hidx
    rw [hgd]
  rw [hm1]
  show STLParser.merge_duplicate_vertices tol ⟨V1, F1, m.normals, m.name⟩ =
    ⟨V1, F1, m.normals, m.name⟩
  simp only [STLParser.merge_duplicate_vertices]
  rw [hquant, npUniqueRows_eq_self hUsorted hUnodup]
  simp only [STLMesh.mk.injEq]
  refine ⟨?_, ?_, trivial, trivial⟩
  · apply List.ext_getElem
    · rw [List.length_map, hV1len]
    · intro i h1 h2
      have hiU : i < U.length := by
        rw [List.length_map] at h1
        exact h1
      rw [List.getElem_map]
      have hmem : U[i] ∈ U := List.getElem_mem hiU
      have hidx : U.indexOf U[i] < U.length := indexOf_lt_length_of_mem hmem
      have heq : U.indexOf U[i] = i := by
        have h3 : U[U.indexOf U[i]] = U[i] := getElem_indexOf_of_mem hmem hidx
        exact (hUnodup.getElem_inj_iff).mp h3
      rw [heq, List.getD_eq_getElem V1 _ h2]
  · rw [hF1, List.map_map]
    apply List.map_congr_left
    intro f hf
    obtain ⟨h1, h2, h3⟩ := hfaces f hf
    simp only [Function.comp]
    rw [Prod.ext_iff, Prod.ext_iff]
    exact ⟨hcomp f.1 h1, hcomp f.2.1 h2, hcomp f.2.2 h3⟩

theorem foldl_min_le_start (a : ℚ) (l : List ℚ) : l.foldl min a ≤ a := by
  induction l generalizing a with
  | nil => exact le_refl a
  | cons b t ih => exact le_trans (ih (min a b)) (min_le_left a b)

theorem foldl_min_le_mem (a : ℚ) (l : List ℚ) : ∀ x ∈ l, l.foldl min a ≤ x := by
  induction l generalizing a with
  | nil => intro x hx; cases hx
  | cons b t ih =>
    intro x hx
    rcases List.mem_cons.mp hx with he | ht
    · subst he
      exact le_trans (foldl_min_le_start (min a x) t) (min_le_right a x)
    · exact ih (min a b) x ht

theorem foldl_min_mem (a : ℚ) (l : List ℚ) : l.foldl min a = a ∨ l.foldl min a ∈ l := by
  induction l generalizing a with
  | nil => exact Or.inl rfl
  | cons b t ih =>
    rcases ih (min a b) with h | h
    · rcases min_choice a b with hm | hm
      · exact Or.inl (by rw [List.foldl_cons, h, hm])
      · exact Or.inr (by rw [List.foldl_cons, h, hm]; exact List.mem_cons_self b t)
    · exact Or.inr (List.mem_cons_of_mem b h)

theorem foldl_max_le_start (a : ℚ) (l : List ℚ) : a ≤ l.foldl max a := by
  induction l generalizing a with
  | nil => exact le_refl a
  | cons b t ih => exact le_trans (le_max_left a b) (ih (max a b))

theorem foldl_max_le_mem (a : ℚ) (l : List ℚ) : ∀ x ∈ l, x ≤ l.foldl max a := by
  induction l generalizing a with
  | nil => intro x hx; cases hx
  | cons b t ih =>
    intro x hx
    rcases List.mem_cons.mp hx with he | ht
    · subst he
      exact le_trans (le_max_right a x) (foldl_max_le_start (max a x) t)
    · exact ih (max a b) x ht

theorem foldl_max_mem (a : ℚ) (l : List ℚ) : l.foldl max a = a ∨ l.foldl max a ∈ l := by
  induction l generalizing a with
  | nil => exact Or.inl rfl
  | cons b t ih =>
    rcases ih (max a b) with h | h
    · rcases max_choice a b with hm | hm
      · exact Or.inl (by rw [List.foldl_cons, h, hm])
      · exact Or.inr (by rw [List.foldl_cons, h, hm]; exact List.mem_cons_self b t)
    · exact Or.inr (List.mem_cons_of_mem b h)

theorem listMinQ_mem {l : List ℚ} (h : l ≠ []) : listMinQ l ∈ l := by
  rcases foldl_min_mem (l.headD 0) l with he | hm
  · rw [listMinQ, he]
    cases l with
    | nil => exact absurd rfl h
    | cons b t => exact List.mem_cons_self b t
  · exact hm

theorem listMinQ_le {l : List ℚ} {x : ℚ} (hx : x ∈ l) : listMinQ l ≤ x :=
  foldl_min_le_mem _ l x hx

theorem listMaxQ_mem {l : List ℚ} (h : l ≠ []) : listMaxQ l ∈ l := by
  rcases foldl_max_mem (l.headD 0) l with he | hm
  · rw [listMaxQ, he]
    cases l with
    | nil => exact absurd rfl h
    | cons b t => exact List.mem_cons_self b t
  · exact hm

theorem le_listMaxQ {l : List ℚ} {x : ℚ} (hx : x ∈ l) : x ≤ listMaxQ l :=
  foldl_max_le_mem _ l x hx

theorem roundHalfEven_dist (q : ℚ) : |q - (roundHalfEven q : ℚ)| ≤ 1 / 2 := by
  have hfl : (⌊q⌋ : ℚ) ≤ q := Int.floor_le q
  have hfu : q < ⌊q⌋ + 1 := Int.lt_floor_add_one q
  simp only [roundHalfEven]
  split_ifs with h1 h2 h3
  · rw [abs_le]
    constructor <;> [linarith; linarith]
  · push_cast
    rw [abs_le]
    constructor <;> [linarith; linarith]
  · rw [abs_le]
    constructor <;> [linarith; linarith]
  · push_cast
    rw [abs_le]
    constructor <;> [linarith; linarith]

/-- Two rationals that quantize to the same grid cell are within the merge
tolerance of each other. -/
theorem close_of_round_eq (tol : ℚ) (htol : 0 < tol) (a b : ℚ)
    (h : roundHalfEven (a * (1 / tol)) = roundHalfEven (b * (1 / tol))) : |a - b| ≤ tol := by
  have h1 := roundHalfEven_dist (a * (1 / tol))
  have h2 := roundHalfEven_dist (b * (1 / tol))
  rw [h] at h1
  have h3 : |a * (1 / tol) - b * (1 / tol)| ≤ 1 := by
    have heq : a * (1 / tol) - b * (1 / tol) =
        (a * (1 / tol) - (roundHalfEven (b * (1 / tol)) : ℚ)) -
          (b * (1 / tol) - (roundHalfEven (b * (1 / tol)) : ℚ)) := by ring
    rw [heq]
    calc |(a * (1 / tol) - (roundHalfEven (b * (1 / tol)) : ℚ)) -
          (b * (1 / tol) - (roundHalfEven (b * (1 / tol)) : ℚ))| ≤
        |a * (1 / tol) - (roundHalfEven (b * (1 / tol)) : ℚ)| +
          |b * (1 / tol) - (roundHalfEven (b * (1 / tol)) : ℚ)| := abs_sub _ _
      _ ≤ 1 := by linarith
  have h4 : a - b = (a * (1 / tol) - b * (1 / tol)) * tol := by
    field_simp
  rw [h4, abs_mul, abs_of_pos htol]
  nlinarith [h3, htol]

theorem merge_vertices_def (tol : ℚ) (m : STLMesh) :
    (STLParser.merge_duplicate_vertices tol m).vertices =
      (npUniqueRows (m.vertices.map (quantize (1 / tol)))).map
        (fun q => m.vertices.getD ((m.vertices.map (quantize (1 / tol))).indexOf q)
          ⟨0, 0, 0⟩) := rfl

/-- The representative kept for a quantized row has exactly that row as its
own quantization. -/
theorem quantize_rep (tol : ℚ) (m : STLMesh) {q : ℤ × ℤ × ℤ}
    (hq : q ∈ m.vertices.map (quantize (1 / tol))) :
    quantize (1 / tol)
      (m.vertices.getD ((m.vertices.map (quantize (1 / tol))).indexOf q) ⟨0, 0, 0⟩) = q := by
  have hidx : (m.vertices.map (quantize (1 / tol))).indexOf q <
      (m.vertices.map (quantize (1 / tol))).length := indexOf_lt_length_of_mem hq
  have hlen : (m.vertices.map (quantize (1 / tol))).length = m.vertices.length :=
    List.length_map _ _
  rw [List.getD_eq_getElem m.vertices _ (hlen ▸ hidx)]
  have hcal : quantize (1 / tol)
      m.vertices[(m.vertices.map (quantize (1 / tol))).indexOf q] =
      (m.vertices.map (quantize (1 / tol)))[(m.vertices.map (quantize (1 / tol))).indexOf q] :=
    (List.getElem_map _).symm
  rw [hcal]
  exact getElem_indexOf_of_mem hq hidx

/-- Every welded vertex is one of the original vertices. -/
theorem merge_vertices_subset (tol : ℚ) (m : STLMesh) :
    ∀ w ∈ (STLParser.merge_duplicate_vertices tol m).vertices, w ∈ m.vertices := by
  intro w hw
  rw [merge_vertices_def] at hw
  obtain ⟨q, hqU, hrep⟩ := List.mem_map.mp hw
  have hqR : q ∈ m.vertices.map (quantize (1 / tol)) := mem_npUniqueRows.mp hqU
  have hidx : (m.vertices.map (quantize (1 / tol))).indexOf q <
      (m.vertices.map (quantize (1 / tol))).length := indexOf_lt_length_of_mem hqR
  have hlen : (m.vertices.map (quantize (1 / tol))).length = m.vertices.length :=
    List.length_map _ _
  rw [← hrep, List.getD_eq_getElem m.vertices _ (hlen ▸ hidx)]
  exact List.getElem_mem _

/-- Every original vertex has a welded representative in its own grid cell. -/
theorem merge_vertices_cover (tol : ℚ) (m : STLMesh) :
    ∀ v ∈ m.vertices, ∃ w ∈ (STLParser.merge_duplicate_vertices tol m).vertices,
      quantize (1 / tol) w = quantize (1 / tol) v := by
  intro v hv
  have hq : quantize (1 / tol) v ∈ m.vertices.map (quantize (1 / tol)) :=
    List.mem_map_of_mem _ hv
  have hqU : quantize (1 / tol) v ∈ npUniqueRows (m.vertices.map (quantize (1 / tol))) :=
    mem_npUniqueRows.mpr hq
  refine ⟨m.vertices.getD ((m.vertices.map (quantize (1 / tol))).indexOf
      (quantize (1 / tol) v)) ⟨0, 0, 0⟩, ?_, quantize_rep tol m hq⟩
  rw [merge_vertices_def]
  exact List.mem_map_of_mem _ hqU

theorem merge_vertices_ne_nil (tol : ℚ) (m : STLMesh) (hne : m.vertices ≠ []) :
    (STLParser.merge_duplicate_vertices tol m).vertices ≠ [] := by
  obtain ⟨v, hv⟩ := List.exists_mem_of_ne_nil m.vertices hne
  obtain ⟨w, hw, _⟩ := merge_vertices_cover tol m v hv
  exact List.ne_nil_of_mem hw

/-- One coordinate's min-bound comparison between a mesh and its weld. -/
theorem weld_coord_min (tol : ℚ) (htol : 0 < tol) (m : STLMesh) (hne : m.vertices ≠ [])
    (c : V3 ℚ → ℚ)
    (hc : ∀ v w : V3 ℚ, quantize (1 / tol) w = quantize (1 / tol) v → |c v - c w| ≤ tol) :
    listMinQ (m.vertices.map c) ≤
        listMinQ ((STLParser.merge_duplicate_vertices tol m).vertices.map c) ∧
      listMinQ ((STLParser.merge_duplicate_vertices tol m).vertices.map c) ≤
        listMinQ (m.vertices.map c) + tol := by
  have hmm := merge_vertices_ne_nil tol m hne
  constructor
  · have hmem : listMinQ ((STLParser.merge_duplicate_vertices tol m).vertices.map c) ∈
        (STLParser.merge_duplicate_vertices tol m).vertices.map c :=
      listMinQ_mem (by simp [hmm])
    obtain ⟨w, hw, hcw⟩ := List.mem_map.mp hmem
    rw [← hcw]
    exact listMinQ_le (List.mem_map_of_mem c (merge_vertices_subset tol m w hw))
  · have hmem : listMinQ (m.vertices.map c) ∈ m.vertices.map c := listMinQ_mem (by simp [hne])
    obtain ⟨v, hv, hcv⟩ := List.mem_map.mp hmem
    obtain ⟨w, hw, hqw⟩ := merge_vertices_cover tol m v hv
    have h1 : listMinQ ((STLParser.merge_duplicate_vertices tol m).vertices.map c) ≤ c w :=
      listMinQ_le (List.mem_map_of_mem c hw)
    have h2 : |c v - c w| ≤ tol := hc v w hqw
    have h3 : c w ≤ c v + tol := by
      rw [abs_le] at h2
      linarith [h2.1]
    rw [← hcv]
    linarith
  
/-- One coordinate's max-bound comparison between a mesh and its weld. -/
theorem weld_coord_max (tol : ℚ) (htol : 0 < tol) (m : STLMesh) (hne : m.vertices ≠ [])
    (c : V3 ℚ → ℚ)
    (hc : ∀ v w : V3 ℚ, quantize (1 / tol) w = quantize (1 / tol) v → |c v - c w| ≤ tol) :
    listMaxQ ((STLParser.merge_duplicate_vertices tol m).vertices.map c) ≤
        listMaxQ (m.vertices.map c) ∧
      listMaxQ (m.vertices.map c) - tol ≤
        listMaxQ ((STLParser.merge_duplicate_vertices tol m).vertices.map c) := by
  have hmm := merge_vertices_ne_nil tol m hne
  constructor
  · have hmem : listMaxQ ((STLParser.merge_duplicate_vertices tol m).vertices.map c) ∈
        (STLParser.merge_duplicate_vertices tol m).vertices.map c :=
      listMaxQ_mem (by simp [hmm])
    obtain ⟨w, hw, hcw⟩ := List.mem_map.mp hmem
    rw [← hcw]
    exact le_listMaxQ (List.mem_map_of_mem c (merge_vertices_subset tol m w hw))
  · have hmem : listMaxQ (m.vertices.map c) ∈ m.vertices.map c := listMaxQ_mem (by simp [hne])
    obtain ⟨v, hv, hcv⟩ := List.mem_map.mp hmem
    obtain ⟨w, hw, hqw⟩ := merge_vertices_cover tol m v hv
    have h1 : c w ≤ listMaxQ ((STLParser.merge_duplicate_vertices tol m).vertices.map c) :=
      le_listMaxQ (List.mem_map_of_mem c hw)
    have h2 : |c v - c w| ≤ tol := hc v w hqw
    have h3 : c v - tol ≤ c w := by
      rw [abs_le] at h2
      linarith [h2.2]
    rw [← hcv]
    linarith

theorem quantize_close_x (tol : ℚ) (htol : 0 < tol) (v w : V3 ℚ)
    (h : quantize (1 / tol) w = quantize (1 / tol) v) : |V3.x v - V3.x w| ≤ tol := by
  simp only [quantize, Prod.mk.injEq] at h
  have hs : (1 / (1 / tol)) = tol := by field_simp
  have := close_of_round_eq (1 / (1 / tol)) (by rw [hs]; exact htol) v.x w.x (by
    rw [hs] at *
    exact h.1.symm)
  rw [hs] at this
  exact this

theorem quantize_close_y (tol : ℚ) (htol : 0 < tol) (v w : V3 ℚ)
    (h : quantize (1 / tol) w = quantize (1 / tol) v) : |V3.y v - V3.y w| ≤ tol := by
  simp only [quantize, Prod.mk.injEq] at h
  have hs : (1 / (1 / tol)) = tol := by field_simp
  have := close_of_round_eq (1 / (1 / tol)) (by rw [hs]; exact htol) v.y w.y (by
    rw [hs] at *
    exact h.2.1.symm)
  rw [hs] at this
  exact this

theorem quantize_close_z (tol : ℚ) (htol : 0 < tol) (v w : V3 ℚ)
    (h : quantize (1 / tol) w = quantize (1 / tol) v) : |V3.z v - V3.z w| ≤ tol := by
  simp only [quantize, Prod.mk.injEq] at h
  have hs : (1 / (1 / tol)) = tol := by field_simp
  have := close_of_round_eq (1 / (1 / tol)) (by rw [hs]; exact htol) v.z w.z (by
    rw [hs] at *
    exact h.2.2.symm)
  rw [hs] at this
  exact this

/-- C4 (amended): welding need not preserve the bounding box exactly — it
keeps one representative per quantization cell, so the box can shrink.  What
holds: the welded box is contained in the original box, and each bound moves
by at most the merge tolerance. -/
theorem C4_weld_bounds (tol : ℚ) (m : STLMesh) (htol : 0 < tol) (hne : m.vertices ≠ []) :
    (m.boundsMin.x ≤ (STLParser.merge_duplicate_vertices tol m).boundsMin.x ∧
      (STLParser.merge_duplicate_vertices tol m).boundsMin.x ≤ m.boundsMin.x + tol) ∧
    (m.boundsMin.y ≤ (STLParser.merge_duplicate_vertices tol m).boundsMin.y ∧
      (STLParser.merge_duplicate_vertices tol m).boundsMin.y ≤ m.boundsMin.y + tol) ∧
    (m.boundsMin.z ≤ (STLParser.merge_duplicate_vertices tol m).boundsMin.z ∧
      (STLParser.merge_duplicate_vertices tol m).boundsMin.z ≤ m.boundsMin.z + tol) ∧
    ((STLParser.merge_duplicate_vertices tol m).boundsMax.x ≤ m.boundsMax.x ∧
      m.boundsMax.x - tol ≤ (STLParser.merge_duplicate_vertices tol m).boundsMax.x) ∧
    ((STLParser.merge_duplicate_vertices tol m).boundsMax.y ≤ m.boundsMax.y ∧
      m.boundsMax.y - tol ≤ (STLParser.merge_duplicate_vertices tol m).boundsMax.y) ∧
    ((STLParser.merge_duplicate_vertices tol m).boundsMax.z ≤ m.boundsMax.z ∧
      m.boundsMax.z - tol ≤ (STLParser.merge_duplicate_vertices tol m).boundsMax.z) := by
  refine ⟨?_, ?_, ?_, ?_, ?_, ?_⟩
  · exact weld_coord_min tol htol m hne V3.x (quantize_close_x tol htol)
  · exact weld_coord_min tol htol m hne V3.y (quantize_close_y tol htol)
  · exact weld_coord_min tol htol m hne V3.z (quantize_close_z tol htol)
  · exact weld_coord_max tol htol m hne V3.x (quantize_close_x tol htol)
  · exact weld_coord_max tol htol m hne V3.y (quantize_close_y tol htol)
  · exact weld_coord_max tol htol m hne V3.z (quantize_close_z tol htol)

theorem roundHalfEven_eq_of_bounds (q : ℚ) (n : ℤ) (h1 : (n : ℚ) ≤ q)
    (h2 : q < (n : ℚ) + 1 / 2) : roundHalfEven q = n := by
  have hf : ⌊q⌋ = n := by
    rw [Int.floor_eq_iff]
    constructor
    · exact h1
    · linarith
  simp only [roundHalfEven]
  rw [hf]
  rw [if_pos (by linarith)]

theorem quantize_eval (s : ℚ) (v : V3 ℚ) (a b c : ℤ)
    (hax : (a : ℚ) ≤ v.x * s) (hbx : v.x * s < (a : ℚ) + 1 / 2)
    (hay : (b : ℚ) ≤ v.y * s) (hby : v.y * s < (b : ℚ) + 1 / 2)
    (haz : (c : ℚ) ≤ v.z * s) (hbz : v.z * s < (c : ℚ) + 1 / 2) :
    quantize s v = (a, b, c) := by
  simp only [quantize]
  rw [roundHalfEven_eq_of_bounds _ a hax hbx, roundHalfEven_eq_of_bounds _ b hay hby,
    roundHalfEven_eq_of_bounds _ c haz hbz]

/-- C3 witness: welding a concrete three-vertex mesh with one duplicate
vertex twice gives the same mesh as welding it once. -/
theorem C3_weld_idempotent_witness :
    STLParser.merge_duplicate_vertices (1 / 10 ^ 6)
        (STLParser.merge_duplicate_vertices (1 / 10 ^ 6)
          ⟨[⟨3, 0, 0⟩, ⟨1, 2, 0⟩, ⟨3, 0, 0⟩], [(0, 1, 2)], [⟨0, 0, 1⟩], [109]⟩) =
      STLParser.merge_duplicate_vertices (1 / 10 ^ 6)
        ⟨[⟨3, 0, 0⟩, ⟨1, 2, 0⟩, ⟨3, 0, 0⟩], [(0, 1, 2)], [⟨0, 0, 1⟩], [109]⟩ :=
  C3_weld_idempotent (1 / 10 ^ 6) _ (by decide)

/-- C4 witness: the amended bound statement instantiated on a concrete mesh. -/
theorem C4_weld_bounds_witness :
    ((STLMesh.mk [⟨1, 2, 3⟩] [] [] []).boundsMin.x ≤
        (STLParser.merge_duplicate_vertices 1 ⟨[⟨1, 2, 3⟩], [], [], []⟩).boundsMin.x ∧
      (STLParser.merge_duplicate_vertices 1 ⟨[⟨1, 2, 3⟩], [], [], []⟩).boundsMin.x ≤
        (STLMesh.mk [⟨1, 2, 3⟩] [] [] []).boundsMin.x + 1) ∧
    ((STLParser.merge_duplicate_vertices 1 ⟨[⟨1, 2, 3⟩], [], [], []⟩).boundsMax.x ≤
        (STLMesh.mk [⟨1, 2, 3⟩] [] [] []).boundsMax.x ∧
      (STLMesh.mk [⟨1, 2, 3⟩] [] [] []).boundsMax.x - 1 ≤
        (STLParser.merge_duplicate_vertices 1 ⟨[⟨1, 2, 3⟩], [], [], []⟩).boundsMax.x) := by
  have h := C4_weld_bounds 1 ⟨[⟨1, 2, 3⟩], [], [], []⟩ (by norm_num) (by simp)
  exact ⟨h.1, h.2.2.2.1⟩

/-- C4 counterexample: two vertices 4e-7 apart share one 1e-6 grid cell, so
welding drops the one achieving the x-max and the bounding box shrinks — the
claim that welding never changes the bounding box is false. -/
theorem C4_weld_bounds_counterexample :
    (0 : ℚ) < 1 / 10 ^ 6 ∧
    (STLMesh.mk [⟨0, 0, 0⟩, ⟨4 / 10 ^ 7, 0, 0⟩] [(0, 1, 0)] [⟨0, 0, 1⟩] [109]).vertices ≠ [] ∧
    (STLParser.merge_duplicate_vertices (1 / 10 ^ 6)
        ⟨[⟨0, 0, 0⟩, ⟨4 / 10 ^ 7, 0, 0⟩], [(0, 1, 0)], [⟨0, 0, 1⟩], [109]⟩).boundsMax.x ≠
      (STLMesh.mk [⟨0, 0, 0⟩, ⟨4 / 10 ^ 7, 0, 0⟩] [(0, 1, 0)] [⟨0, 0, 1⟩] [109]).boundsMax.x := by
  have hq0 : quantize (1 / (1 / 10 ^ 6)) (⟨0, 0, 0⟩ : V3 ℚ) = (0, 0, 0) :=
    quantize_eval _ _ 0 0 0 (by norm_num) (by norm_num) (by norm_num) (by norm_num)
      (by norm_num) (by norm_num)
  have hq1 : quantize (1 / (1 / 10 ^ 6)) (⟨4 / 10 ^ 7, 0, 0⟩ : V3 ℚ) = (0, 0, 0) :=
    quantize_eval _ _ 0 0 0 (by norm_num) (by norm_num) (by norm_num) (by norm_num)
      (by norm_num) (by norm_num)
  have hmain : STLParser.merge_duplicate_vertices (1 / 10 ^ 6)
      ⟨[⟨0, 0, 0⟩, ⟨4 / 10 ^ 7, 0, 0⟩], [(0, 1, 0)], [⟨0, 0, 1⟩], [109]⟩ =
      ⟨[⟨0, 0, 0⟩], [(0, 0, 0)], [⟨0, 0, 1⟩], [109]⟩ := by
    simp only [STLParser.merge_duplicate_vertices]
    rw [List.map_cons, List.map_cons, List.map_nil, hq0, hq1]
    rfl
  refine ⟨by norm_num, by simp, ?_⟩
  rw [hmain]
  show listMaxQ [(0 : ℚ)] ≠ listMaxQ [0, 4 / 10 ^ 7]
  simp only [listMaxQ, List.headD, List.foldl]
  norm_num

theorem readExact_none {n : ℕ} {l : List ℕ} (h : l.length < n) : readExact n l = none := by
  rw [readExact, if_neg (by omega)]

theorem readExact_some {n : ℕ} {l : List ℕ} (h : n ≤ l.length) :
    readExact n l = some (l.take n, l.drop n) := by
  rw [readExact, if_pos h]

/-- If fewer bytes remain than the declared triangles need (allowing the
final 2-byte attribute to be truncated, which `f.read(2)` tolerates), the
triangle-reading loop fails. -/
theorem readTriangles_none : ∀ (k : ℕ) (l : List ℕ), 1 ≤ k → l.length + 2 < 50 * k →
    readTriangles k l = none := by
  intro k
  induction k with
  | zero =>
    intro l h
    omega
  | succ k ih =>
    intro l _ hlen
    simp only [readTriangles]
    rcases Nat.lt_or_ge l.length 12 with h1 | h1
    · simp only [readExact_none h1]
    · simp only [readExact_some h1]
      rcases Nat.lt_or_ge (l.drop 12).length 12 with h2 | h2
      · simp only [readExact_none h2]
      · simp only [readExact_some h2]
        rcases Nat.lt_or_ge ((l.drop 12).drop 12).length 12 with h3 | h3
        · simp only [readExact_none h3]
        · simp only [readExact_some h3]
          rcases Nat.lt_or_ge (((l.drop 12).drop 12).drop 12).length 12 with h4 | h4
          · simp only [readExact_none h4]
          · simp only [readExact_some h4]
            simp only [List.length_drop] at h2 h3 h4
            have hk1 : 1 ≤ k := by omega
            have hlast :
                (((((l.drop 12).drop 12).drop 12).drop 12).drop 2).length + 2 < 50 * k := by
              simp only [List.length_drop]
              omega
            rw [ih _ hk1 hlast]

/-- A binary STL whose declared count exceeds the triangles present in the
remaining bytes makes _parse_binary raise (struct.error on a short read). -/
theorem parse_binary_truncated (bytes stem : List ℕ) (hlen : 84 ≤ bytes.length)
    (hcnt : 1 ≤ declaredTriangleCount bytes)
    (hsize : bytes.length < 82 + 50 * declaredTriangleCount bytes) :
    STLParser.parse_binary bytes stem = none := by
  simp only [STLParser.parse_binary]
  have h4 : 4 ≤ (bytes.drop 80).length := by
    simp only [List.length_drop]
    omega
  simp only [readExact_some h4]
  have hbound : ((bytes.drop 80).drop 4).length + 2 < 50 * declaredTriangleCount bytes := by
    simp only [List.length_drop]
    omega
  simp only [declaredTriangleCount] at hcnt hbound
  rw [readTriangles_none _ _ hcnt hbound]

/-- C2: parse fails with the NotFound condition when the path is missing,
with the FormatError condition when the selected decoder fails, and in
particular a binary file whose declared 32-bit triangle count exceeds the
triangles actually present in the remaining bytes yields FormatError, never
a silently truncated mesh. -/
theorem C2_parse_error_conditions :
    (∀ (parser : STLParser) (stem : List ℕ),
      STLParser.parse parser none stem = .error .notFound) ∧
    (∀ (parser : STLParser) (bytes stem : List ℕ),
      STLParser.is_ascii bytes = true → STLParser.parse_ascii bytes stem = none →
      STLParser.parse parser (some bytes) stem = .error .formatError) ∧
    (∀ (parser : STLParser) (bytes stem : List ℕ),
      STLParser.is_ascii bytes = false → STLParser.parse_binary bytes stem = none →
      STLParser.parse parser (some bytes) stem = .error .formatError) ∧
    (∀ (parser : STLParser) (bytes stem : List ℕ),
      STLParser.is_ascii bytes = false →
      84 ≤ bytes.length →
      1 ≤ declaredTriangleCount bytes →
      bytes.length < 82 + 50 * declaredTriangleCount bytes →
      STLParser.parse parser (some bytes) stem = .error .formatError) := by
  have hbinErr : ∀ (parser : STLParser) (bytes stem : List ℕ),
      STLParser.is_ascii bytes = false → STLParser.parse_binary bytes stem = none →
      STLParser.parse parser (some bytes) stem = .error .formatError := by
    intro parser bytes stem hascii hbin
    simp only [STLParser.parse, hascii, Bool.false_eq_true, if_false, hbin]
  refine ⟨fun parser stem => rfl, ?_, hbinErr, ?_⟩
  · intro parser bytes stem hascii hasc
    simp only [STLParser.parse, hascii, if_true, hasc]
  · intro parser bytes stem hascii hlen hcnt hsize
    exact hbinErr parser bytes stem hascii (parse_binary_truncated bytes stem hlen hcnt hsize)

/-- C2 witness: an 84-byte binary file declaring 1 triangle but containing
none is rejected with FormatError. -/
theorem C2_parse_error_conditions_witness :
    STLParser.parse ⟨true, 1 / 10 ^ 6⟩ (some (List.replicate 80 0 ++ [1, 0, 0, 0])) [] =
      .error .formatError :=
  C2_parse_error_conditions.2.2.2 ⟨true, 1 / 10 ^ 6⟩ (List.replicate 80 0 ++ [1, 0, 0, 0]) []
    (by decide) (by decide) (by decide) (by decide)

/-
Surface fitter, from src/stl-to-cad/src/stl_to_cad/fitting/surface_fitter.py.

scipy calls (SVD in _parameterize, griddata in _fit_control_points, spline
evaluation in NURBSSurface.evaluate) are modelled through a `ScipyOracle`
whose fields return `none` when the library call raises.
-/

/-- Python int(): truncation toward zero. -/
noncomputable def pyInt (x : ℝ) : ℤ :=
  if x < 0 then -⌊-x⌋ else ⌊x⌋

/-- np.min of a real list (meaningful on non-empty lists). -/
noncomputable def listMinR (l : List ℝ) : ℝ :=
  l.foldl min (l.headD 0)

/-- np.max of a real list. -/
noncomputable def listMaxR (l : List ℝ) : ℝ :=
  l.foldl max (l.headD 0)

/-- np.mean of a real list. -/
noncomputable def listMeanR (l : List ℝ) : ℝ :=
  l.sum / l.length

/-- np.percentile(params, q) with the default linear interpolation: virtual
index `q/100·(n−1)` into the sorted data, linearly interpolated between the
two neighbouring order statistics (upper index clamped to the last entry). -/
noncomputable def percentile (params : List ℝ) (q : ℝ) : ℝ :=
  let s := List.insertionSort (· ≤ ·) params
  let n := s.length
  let pos := q / 100 * ((n : ℝ) - 1)
  let lower := ⌊pos⌋₊
  let frac := pos - (lower : ℝ)
  let a := s.getD lower 0
  let b := s.getD (min (lower + 1) (n - 1)) 0
  a + frac * (b - a)

/-- SurfaceFitter._create_knot_vector: an array of `n_control+degree+1`
zeros, its last `degree+1` entries set to 1 (Python negative-slice
semantics), and, when `n_knots − 2(degree+1) > 0`, the internal positions
overwritten with percentiles of the parameter values at equally spaced
fractions. -/
noncomputable def createKnotVector (params : List ℝ) (n_control degree : ℕ) : List ℝ :=
  let n_knots := n_control + degree + 1
  let n_internal : ℤ := (n_knots : ℤ) - 2 * ((degree : ℤ) + 1)
  List.ofFn fun i : Fin n_knots =>
    if ((degree : ℤ) + 1 ≤ ((i : ℕ) : ℤ) ∧ ((i : ℕ) : ℤ) < (degree : ℤ) + 1 + n_internal) then
      percentile params (100 * ((((i : ℕ) : ℝ) - (degree : ℝ)) / ((n_internal : ℝ) + 1)))
    else if n_knots - (degree + 1) ≤ (i : ℕ) then 1
    else 0

/-- The target total control-point count of SurfaceFitter._compute_grid_size:
`int(np.sqrt(n_points) * density * 0.5)` clamped to [4, 30]. -/
noncomputable def gridNTotal (n_points : ℕ) (density : ℝ) : ℤ :=
  max 4 (min (pyInt (Real.sqrt (n_points : ℝ) * density * 0.5)) 30)

/-- SurfaceFitter._compute_grid_size.  `density` is
`self.config.control_points_density`; the surface-extent estimate is
computed but unused, as in the source. -/
noncomputable def computeGridSize (points : List (V3 ℝ)) (u_params v_params : List ℝ)
    (density : ℝ) : ℕ × ℕ :=
  let bounds_min : V3 ℝ :=
    ⟨listMinR (points.map V3.x), listMinR (points.map V3.y), listMinR (points.map V3.z)⟩
  let bounds_max : V3 ℝ :=
    ⟨listMaxR (points.map V3.x), listMaxR (points.map V3.y), listMaxR (points.map V3.z)⟩
  let extent := V3.norm (bounds_max - bounds_min)
  let n_total := gridNTotal points.length density
  let u_spread := listMaxR u_params - listMinR u_params
  let v_spread := listMaxR v_params - listMinR v_params
  let ratio := u_spread / (v_spread + 1 / 10 ^ 10)
  let n_u : ℤ := pyInt ((n_total : ℝ) * Real.sqrt ratio)
  let n_v : ℤ := pyInt ((n_total : ℝ) / Real.sqrt ratio)
  ((max 4 (min n_u 20)).toNat, (max 4 (min n_v 20)).toNat)

/-- NURBSSurface: control-point grid (indexed functionally, with the grid
shape carried in `n_u`/`n_v`), all-ones rational weights, two clamped knot
vectors, and the two degrees. -/
structure NURBSSurface where
  control_points : ℕ → ℕ → V3 ℝ
  weights : ℕ → ℕ → ℝ
  knots_u : List ℝ
  knots_v : List ℝ
  n_u : ℕ
  n_v : ℕ
  degree_u : ℕ
  degree_v : ℕ

/-- FittedSurface: a NURBS surface with its source point indices and quality
metrics. -/
structure FittedSurface where
  surface : NURBSSurface
  point_indices : List ℕ
  fitting_error : ℝ
  max_error : ℝ
  coverage : ℝ

/-- FittedSurface.is_acceptable. -/
def FittedSurface.is_acceptable (fs : FittedSurface) (tolerance : ℝ) : Prop :=
  fs.max_error ≤ tolerance

/-- SurfaceFittingConfig with its documented defaults. -/
structure SurfaceFittingConfig where
  nurbs_degree_u : ℕ := 3
  nurbs_degree_v : ℕ := 3
  control_points_density : ℝ := 0.1
  max_iterations : ℕ := 100
  convergence_threshold : ℝ := 1 / 10 ^ 6
  smoothing_weight : ℝ := 0.1

/-- External scipy/numpy calls of the fitting pipeline; `none` models the
call raising.  `svd_rows` yields the first two right-singular rows of the
centered point matrix; `griddata` (cubic when the flag is true, else linear)
yields per-cell values with `none` cells for NaN. -/
structure ScipyOracle where
  svd_rows : List (V3 ℝ) → Option (V3 ℝ × V3 ℝ)
  griddata : Bool → List (ℝ × ℝ) → List ℝ → ℕ → ℕ → Option (ℕ → ℕ → Option ℝ)
  eval_surface : NURBSSurface → ℝ → ℝ → Option (V3 ℝ)

/-- SurfaceFitter._parameterize: center, project on the two principal
directions, min–max normalize to [0, 1] (with the 1e-10 guard). -/
noncomputable def parameterize (o : ScipyOracle) (points : List (V3 ℝ)) :
    Except Unit (List ℝ × List ℝ) :=
  let centroid := V3.meanR points
  let centered := points.map fun p => p - centroid
  match o.svd_rows centered with
  | none => .error ()
  | some (u_dir, v_dir) =>
    let u_coords := centered.map fun p => V3.dot p u_dir
    let v_coords := centered.map fun p => V3.dot p v_dir
    let u_params := u_coords.map fun x =>
      (x - listMinR u_coords) / (listMaxR u_coords - listMinR u_coords + 1 / 10 ^ 10)
    let v_params := v_coords.map fun x =>
      (x - listMinR v_coords) / (listMaxR v_coords - listMinR v_coords + 1 / 10 ^ 10)
    .ok (u_params, v_params)

/-- The per-channel `try cubic except linear` griddata call of
SurfaceFitter._fit_control_points. -/
noncomputable def gridChannel (o : ScipyOracle) (param_points : List (ℝ × ℝ)) (vals : List ℝ)
    (n_u n_v : ℕ) : Option (ℕ → ℕ → Option ℝ) :=
  match o.griddata true param_points vals n_u n_v with
  | some g => some g
  | none => o.griddata false param_points vals n_u n_v

/-- SurfaceFitter._fit_control_points: scatter-interpolate each coordinate
channel onto the grid; unresolved (NaN) cells are filled with the channel
mean (the fill_value and the later NaN mask both fill with the same mean).
The knot-vector arguments are accepted and unused, as in the source.  If
both the cubic and linear calls raise for some channel, the error
propagates. -/
noncomputable def fit_control_points (o : ScipyOracle) (points : List (V3 ℝ))
    (u_params v_params : List ℝ) (n_u n_v : ℕ) (knots_u knots_v : List ℝ) :
    Except Unit (ℕ → ℕ → V3 ℝ) :=
  let param_points := u_params.zip v_params
  match gridChannel o param_points (points.map V3.x) n_u n_v with
  | none => .error ()
  | some gx =>
    match gridChannel o param_points (points.map V3.y) n_u n_v with
    | none => .error ()
    | some gy =>
      match gridChannel o param_points (points.map V3.z) n_u n_v with
      | none => .error ()
      | some gz =>
        .ok fun i j =>
          ⟨(gx i j).getD (listMeanR (points.map V3.x)),
           (gy i j).getD (listMeanR (points.map V3.y)),
           (gz i j).getD (listMeanR (points.map V3.z))⟩

/-- SurfaceFitter._compute_errors: per-point Euclidean residual at the
point's own (u, v); a raising surface evaluation yields error 0. -/
noncomputable def compute_errors (o : ScipyOracle) (surface : NURBSSurface)
    (points : List (V3 ℝ)) (u_params v_params : List ℝ) : List ℝ :=
  ((u_params.zip v_params).zip points).map fun x =>
    match o.eval_surface surface x.1.1 x.1.2 with
    | some surface_pt => V3.norm (x.2 - surface_pt)
    | none => 0

/-- SurfaceFitter.fit. -/
noncomputable def SurfaceFitter.fit (o : ScipyOracle) (config : SurfaceFittingConfig)
    (points : List (V3 ℝ)) : Except Unit FittedSurface :=
  match parameterize o points with
  | .error e => .error e
  | .ok (u_params, v_params) =>
    let nuv := computeGridSize points u_params v_params config.control_points_density
    let knots_u := createKnotVector u_params nuv.1 config.nurbs_degree_u
    let knots_v := createKnotVector v_params nuv.2 config.nurbs_degree_v
    match fit_control_points o points u_params v_params nuv.1 nuv.2 knots_u knots_v with
    | .error e => .error e
    | .ok control_points =>
      let weights : ℕ → ℕ → ℝ := fun _ _ => 1
      let surface : NURBSSurface :=
        ⟨control_points, weights, knots_u, knots_v, nuv.1, nuv.2,
          config.nurbs_degree_u, config.nurbs_degree_v⟩
      let errors := compute_errors o surface points u_params v_params
      .ok ⟨surface, List.range points.length, listMeanR errors, listMaxR errors, 1⟩

/-- The refinement loop of SurfaceFitter.fit_with_refinement, with the
mutable `self.config` threaded as explicit state: per round, stop when
`max_error <= target_error`, otherwise multiply `control_points_density` by
1.5 and refit. -/
noncomputable def refineLoop (o : ScipyOracle) (points : List (V3 ℝ)) (target_error : ℝ) :
    ℕ → SurfaceFittingConfig → FittedSurface →
      Except Unit (FittedSurface × SurfaceFittingConfig)
  | 0, config, fitted => .ok (fitted, config)
  | k + 1, config, fitted =>
    if fitted.max_error ≤ target_error then .ok (fitted, config)
    else
      let config1 :=
        { config with control_points_density := config.control_points_density * 1.5 }
      match SurfaceFitter.fit o config1 points with
      | .error e => .error e
      | .ok fitted1 => refineLoop o points target_error k config1 fitted1

/-- SurfaceFitter.fit_with_refinement (defaults: target_error 0.01,
max_refinements 5); returns the fitted surface together with the
SurfaceFitter's config state after the call. -/
noncomputable def SurfaceFitter.fit_with_refinement (o : ScipyOracle)
    (config : SurfaceFittingConfig) (points : List (V3 ℝ)) (target_error : ℝ)
    (max_refinements : ℕ) : Except Unit (FittedSurface × SurfaceFittingConfig) :=
  match SurfaceFitter.fit o config points with
  | .error e => .error e
  | .ok fitted => refineLoop o points target_error max_refinements config fitted

/-- A concrete oracle on which every external call succeeds trivially except
surface evaluation, which raises (so per-point errors fall back to 0). -/
noncomputable def oracle0 : ScipyOracle :=
  ⟨fun _ => some (⟨1, 0, 0⟩, ⟨0, 1, 0⟩),
   fun _ _ _ _ _ => some fun _ _ => some 0,
   fun _ _ _ => none⟩

/-- The default-constructed SurfaceFittingConfig. -/
noncomputable def defaultFitConfig : SurfaceFittingConfig := {}

/-- C10: whenever SurfaceFitter.fit returns, the FittedSurface has coverage
exactly 1.0 and point_indices exactly 0..n_points−1, regardless of the
achieved error. -/
theorem C10_fit_full_coverage (o : ScipyOracle) (config : SurfaceFittingConfig)
    (points : List (V3 ℝ)) (fs : FittedSurface) (hne : points ≠ [])
    (h : SurfaceFitter.fit o config points = .ok fs) :
    fs.coverage = 1 ∧ fs.point_indices = List.range points.length := by
  simp only [SurfaceFitter.fit] at h
  split at h
  · exact absurd h (by simp)
  · split at h
    · exact absurd h (by simp)
    · injection h with h1
      rw [← h1]
      exact ⟨rfl, rfl⟩

/-- C10 witness: fit on a concrete single point with a concrete oracle
returns, with coverage 1 and the full index range. -/
theorem C10_fit_full_coverage_witness :
    ∃ fs, SurfaceFitter.fit oracle0 defaultFitConfig [⟨0, 0, 0⟩] = .ok fs ∧
      fs.coverage = 1 ∧ fs.point_indices = List.range 1 := by
  refine ⟨_, rfl, ?_⟩
  exact C10_fit_full_coverage oracle0 defaultFitConfig [⟨0, 0, 0⟩] _ (by simp) rfl

theorem refineLoop_density (o : ScipyOracle) (points : List (V3 ℝ)) (target_error : ℝ) :
    ∀ (k : ℕ) (config : SurfaceFittingConfig) (fitted : FittedSurface)
      (res : FittedSurface × SurfaceFittingConfig),
      refineLoop o points target_error k config fitted = .ok res →
      ∃ j ≤ k, res.2 = { config with
        control_points_density := config.control_points_density * 1.5 ^ j } := by
  intro k
  induction k with
  | zero =>
    intro config fitted res h
    simp only [refineLoop] at h
    injection h with h1
    refine ⟨0, le_refl 0, ?_⟩
    rw [← h1]
    simp
  | succ k ih =>
    intro config fitted res h
    simp only [refineLoop] at h
    split at h
    · injection h with h1
      refine ⟨0, Nat.zero_le _, ?_⟩
      rw [← h1]
      simp
    · split at h
      · exact absurd h (by simp)
      · obtain ⟨j, hj, hres⟩ := ih _ _ _ h
        refine ⟨j + 1, by omega, ?_⟩
        rw [hres]
        simp only [SurfaceFittingConfig.mk.injEq]
        refine ⟨trivial, trivial, ?_, trivial, trivial, trivial⟩
        ring

/-- C8 (amended): fit_with_refinement does mutate the fitter's config — it
multiplies control_points_density by 1.5 once per executed refinement round
and never restores it; every other config field is unchanged.  On success
the final density is the initial one times 1.5^j for some j ≤
max_refinements. -/
theorem C8_fit_with_refinement_density (o : ScipyOracle) (config : SurfaceFittingConfig)
    (points : List (V3 ℝ)) (target_error : ℝ) (max_refinements : ℕ)
    (res : FittedSurface × SurfaceFittingConfig)
    (h : SurfaceFitter.fit_with_refinement o config points target_error max_refinements =
      .ok res) :
    ∃ j ≤ max_refinements, res.2 = { config with
      control_points_density := config.control_points_density * 1.5 ^ j } := by
  simp only [SurfaceFitter.fit_with_refinement] at h
  split at h
  · exact absurd h (by simp)
  · exact refineLoop_density o points target_error max_refinements config _ res h

/-- C8 witness: with a zero refinement budget on concrete inputs the
returned config is the input config (j = 0). -/
theorem C8_fit_with_refinement_density_witness :
    ∃ res, SurfaceFitter.fit_with_refinement oracle0 defaultFitConfig [⟨0, 0, 0⟩] 1 0 =
        .ok res ∧
      ∃ j ≤ 0, res.2 = { defaultFitConfig with
        control_points_density := defaultFitConfig.control_points_density * 1.5 ^ j } := by
  refine ⟨_, rfl, ?_⟩
  exact C8_fit_with_refinement_density oracle0 defaultFitConfig [⟨0, 0, 0⟩] 1 0 _ rfl

theorem fit_oracle0_max_error (config : SurfaceFittingConfig) (p : V3 ℝ) :
    ∃ fs, SurfaceFitter.fit oracle0 config [p] = .ok fs ∧ fs.max_error = 0 := by
  refine ⟨_, rfl, ?_⟩
  show listMaxR (compute_errors oracle0 _ [p] _ _) = 0
  simp only [compute_errors, oracle0, List.map_cons, List.map_nil, List.zip_cons_cons,
    List.zip_nil_right]
  simp [listMaxR]

/-- C8 counterexample: one executed refinement round multiplies the config's
control_points_density by 1.5 and fit_with_refinement returns with the
config still modified, so the claim that every SurfaceFittingConfig field is
left equal to its pre-call value is false. -/
theorem C8_fit_with_refinement_density_counterexample :
    (SurfaceFitter.fit_with_refinement oracle0 defaultFitConfig [⟨0, 0, 0⟩] (-1) 1).map
        Prod.snd ≠ .ok defaultFitConfig := by
  obtain ⟨fs0, hf0, hm0⟩ := fit_oracle0_max_error defaultFitConfig ⟨0, 0, 0⟩
  obtain ⟨fs1, hf1, _⟩ := fit_oracle0_max_error
    { defaultFitConfig with
      control_points_density := defaultFitConfig.control_points_density * 1.5 } ⟨0, 0, 0⟩
  have hrun : SurfaceFitter.fit_with_refinement oracle0 defaultFitConfig [⟨0, 0, 0⟩] (-1) 1 =
      .ok (fs1, { defaultFitConfig with
        control_points_density := defaultFitConfig.control_points_density * 1.5 }) := by
    simp only [SurfaceFitter.fit_with_refinement, hf0]
    rw [show (1 : ℕ) = 0 + 1 from rfl]
    simp only [refineLoop]
    rw [if_neg (by rw [hm0]; norm_num)]
    simp only [hf1]
  rw [hrun]
  intro hcontra
  simp only [Except.map] at hcontra
  injection hcontra with h1
  have h2 := congrArg SurfaceFittingConfig.control_points_density h1
  simp only [defaultFitConfig] at h2
  norm_num at h2

/-- C6 (amended): on non-degenerate inputs (positive u-parameter spread, so
the source does not overflow), the grid-sizing step returns
`int(n_total·√ratio)` and `int(n_total/√ratio)` each clamped to [4, 20],
where `n_total = int(√n_points · density · 0.5)` clamped to [4, 30] — note
the extra 0.5 factor and the int() truncations absent from the claim — and
`ratio` is the u-spread over the v-spread plus 1e-10; both outputs always
lie in [4, 20]. -/
theorem C6_grid_size (points : List (V3 ℝ)) (u_params v_params : List ℝ) (density : ℝ)
    (hspread : 0 < listMaxR u_params - listMinR u_params) :
    computeGridSize points u_params v_params density =
      ((max 4 (min (pyInt ((gridNTotal points.length density : ℝ) *
          Real.sqrt ((listMaxR u_params - listMinR u_params) /
            (listMaxR v_params - listMinR v_params + 1 / 10 ^ 10)))) 20)).toNat,
       (max 4 (min (pyInt ((gridNTotal points.length density : ℝ) /
          Real.sqrt ((listMaxR u_params - listMinR u_params) /
            (listMaxR v_params - listMinR v_params + 1 / 10 ^ 10)))) 20)).toNat) ∧
    4 ≤ (computeGridSize points u_params v_params density).1 ∧
    (computeGridSize points u_params v_params density).1 ≤ 20 ∧
    4 ≤ (computeGridSize points u_params v_params density).2 ∧
    (computeGridSize points u_params v_params density).2 ≤ 20 := by
  have hbound : ∀ z : ℤ, 4 ≤ (max 4 (min z 20)).toNat ∧ (max 4 (min z 20)).toNat ≤ 20 := by
    intro z
    constructor
    · have h1 : (4 : ℤ) ≤ max 4 (min z 20) := le_max_left _ _
      omega
    · have h2 : max 4 (min z 20) ≤ 20 := max_le (by norm_num) (min_le_right _ _)
      omega
  exact ⟨rfl, (hbound _).1, (hbound _).2, (hbound _).1, (hbound _).2⟩

/-- C6 witness: the amended grid-size statement instantiated on concrete
parameter lists with unit u-spread. -/
theorem C6_grid_size_witness :
    4 ≤ (computeGridSize [⟨0, 0, 0⟩] [0, 1] [0, 1] 1).1 ∧
    (computeGridSize [⟨0, 0, 0⟩] [0, 1] [0, 1] 1).1 ≤ 20 ∧
    4 ≤ (computeGridSize [⟨0, 0, 0⟩] [0, 1] [0, 1] 1).2 ∧
    (computeGridSize [⟨0, 0, 0⟩] [0, 1] [0, 1] 1).2 ≤ 20 := by
  have h := C6_grid_size [⟨0, 0, 0⟩] [0, 1] [0, 1] 1 (by
    simp only [listMaxR, listMinR, List.foldl, List.headD]
    rw [max_self, max_eq_right (by norm_num : (0 : ℝ) ≤ 1),
      min_self, min_eq_left (by norm_num : (0 : ℝ) ≤ 1)]
    norm_num)
  exact h.2

/-- C6 counterexample: the claimed target total `sqrt(n_points)·density`
clamped to [4, 30] gives 20 at 400 points with density 1, but the code's
`int(sqrt(n_points)·density·0.5)` clamped to [4, 30] gives 10, so the claim
as stated is false. -/
theorem C6_grid_size_counterexample :
    (gridNTotal 400 1 : ℝ) ≠ max 4 (min (Real.sqrt ((400 : ℕ) : ℝ) * 1) 30) := by
  have hs : Real.sqrt ((400 : ℕ) : ℝ) = 20 := by
    rw [show ((400 : ℕ) : ℝ) = (20 : ℝ) ^ 2 by norm_num, Real.sqrt_sq (by norm_num)]
  have hpy : pyInt (Real.sqrt ((400 : ℕ) : ℝ) * 1 * 0.5) = 10 := by
    simp only [pyInt]
    rw [if_neg (not_lt.mpr (by positivity))]
    rw [hs, show (20 : ℝ) * 1 * 0.5 = ((10 : ℤ) : ℝ) by norm_num, Int.floor_intCast]
  have hlhs : gridNTotal 400 1 = 10 := by
    simp only [gridNTotal, hpy]
    rw [min_eq_left (by norm_num : (10 : ℤ) ≤ 30), max_eq_right (by norm_num : (4 : ℤ) ≤ 10)]
  rw [hlhs, hs, show (20 : ℝ) * 1 = 20 by norm_num,
    min_eq_left (by norm_num : (20 : ℝ) ≤ 30), max_eq_right (by norm_num : (4 : ℝ) ≤ 20)]
  norm_num

theorem sorted_getD_mono {s : List ℝ} (hs : List.Sorted (· ≤ ·) s) {i j : ℕ}
    (hij : i ≤ j) (hj : j < s.length) : s.getD i 0 ≤ s.getD j 0 := by
  rcases Nat.eq_or_lt_of_le hij with he | hlt
  · subst he
    exact le_refl _
  · rw [List.getD_eq_getElem _ _ (lt_trans hlt hj), List.getD_eq_getElem _ _ hj]
    exact List.pairwise_iff_getElem.mp hs i j (lt_trans hlt hj) hj hlt

theorem getD_bounds_of_forall {s : List ℝ} (hin : ∀ x ∈ s, 0 ≤ x ∧ x ≤ 1) (i : ℕ) :
    0 ≤ s.getD i 0 ∧ s.getD i 0 ≤ 1 := by
  rcases Nat.lt_or_ge i s.length with h | h
  · rw [List.getD_eq_getElem _ _ h]
    exact hin _ (List.getElem_mem h)
  · rw [List.getD_eq_default _ _ h]
    norm_num

/-- The numpy interpolation value at a virtual position lies between 0 and 1
when all data does. -/
theorem interp_bounds (s : List ℝ) (hin : ∀ x ∈ s, 0 ≤ x ∧ x ≤ 1) (pos : ℝ)
    (hpos : 0 ≤ pos) :
    0 ≤ s.getD ⌊pos⌋₊ 0 +
        (pos - (⌊pos⌋₊ : ℝ)) * (s.getD (min (⌊pos⌋₊ + 1) (s.length - 1)) 0 - s.getD ⌊pos⌋₊ 0) ∧
      s.getD ⌊pos⌋₊ 0 +
        (pos - (⌊pos⌋₊ : ℝ)) * (s.getD (min (⌊pos⌋₊ + 1) (s.length - 1)) 0 - s.getD ⌊pos⌋₊ 0) ≤
        1 := by
  obtain ⟨ha0, ha1⟩ := getD_bounds_of_forall hin ⌊pos⌋₊
  obtain ⟨hb0, hb1⟩ := getD_bounds_of_forall hin (min (⌊pos⌋₊ + 1) (s.length - 1))
  have hf0 : 0 ≤ pos - (⌊pos⌋₊ : ℝ) := by
    have := Nat.floor_le hpos
    linarith
  have hf1 : pos - (⌊pos⌋₊ : ℝ) ≤ 1 := by
    have := Nat.lt_floor_add_one pos
    linarith
  constructor
  · nlinarith
  · nlinarith

/-- Monotonicity of the numpy interpolation value in the virtual position,
over sorted data. -/
theorem interp_mono (s : List ℝ) (hs : List.Sorted (· ≤ ·) s) (hne : s ≠ [])
    (pos1 pos2 : ℝ) (h0 : 0 ≤ pos1) (h12 : pos1 ≤ pos2) (h2 : pos2 ≤ (s.length : ℝ) - 1) :
    s.getD ⌊pos1⌋₊ 0 +
        (pos1 - (⌊pos1⌋₊ : ℝ)) *
          (s.getD (min (⌊pos1⌋₊ + 1) (s.length - 1)) 0 - s.getD ⌊pos1⌋₊ 0) ≤
      s.getD ⌊pos2⌋₊ 0 +
        (pos2 - (⌊pos2⌋₊ : ℝ)) *
          (s.getD (min (⌊pos2⌋₊ + 1) (s.length - 1)) 0 - s.getD ⌊pos2⌋₊ 0) := by
  have hn1 : 1 ≤ s.length := List.length_pos.mpr hne
  have hcast : ((s.length - 1 : ℕ) : ℝ) = (s.length : ℝ) - 1 := by
    push_cast [hn1]
    ring
  have hl2top : ⌊pos2⌋₊ ≤ s.length - 1 := by
    have h1 := Nat.floor_le_floor (α := ℝ) (hcast ▸ h2)
    rwa [Nat.floor_natCast] at h1
  have hl1top : ⌊pos1⌋₊ ≤ s.length - 1 := by
    have h1 := Nat.floor_le_floor (α := ℝ) (hcast ▸ le_trans h12 h2)
    rwa [Nat.floor_natCast] at h1
  have hl2lt : ⌊pos2⌋₊ < s.length := by omega
  have hl1lt : ⌊pos1⌋₊ < s.length := by omega
  have hminlt : ∀ l : ℕ, min (l + 1) (s.length - 1) < s.length := by
    intro l
    omega
  have hab : ∀ l : ℕ, l ≤ s.length - 1 →
      s.getD l 0 ≤ s.getD (min (l + 1) (s.length - 1)) 0 := by
    intro l hl
    exact sorted_getD_mono hs (by omega) (hminlt l)
  have hf10 : 0 ≤ pos1 - (⌊pos1⌋₊ : ℝ) := by
    have := Nat.floor_le h0
    linarith
  have hf11 : pos1 - (⌊pos1⌋₊ : ℝ) ≤ 1 := by
    have := Nat.lt_floor_add_one pos1
    linarith
  have hf20 : 0 ≤ pos2 - (⌊pos2⌋₊ : ℝ) := by
    have := Nat.floor_le (le_trans h0 h12)
    linarith
  rcases Nat.eq_or_lt_of_le (Nat.floor_le_floor h12) with heq | hlt
  · -- same cell: linear interpolation with the same endpoints
    have hfr : pos1 - (⌊pos1⌋₊ : ℝ) ≤ pos2 - (⌊pos2⌋₊ : ℝ) := by
      rw [← heq]
      linarith
    have hba := hab ⌊pos1⌋₊ hl1top
    rw [← heq]
    nlinarith [hba, hfr, hf10]
  · -- different cells: value1 ≤ upper endpoint of cell 1 ≤ lower endpoint of
    -- cell 2 ≤ value2
    have h1b : s.getD ⌊pos1⌋₊ 0 +
        (pos1 - (⌊pos1⌋₊ : ℝ)) *
          (s.getD (min (⌊pos1⌋₊ + 1) (s.length - 1)) 0 - s.getD ⌊pos1⌋₊ 0) ≤
        s.getD (min (⌊pos1⌋₊ + 1) (s.length - 1)) 0 := by
      nlinarith [hab ⌊pos1⌋₊ hl1top, hf10, hf11]
    have hbc : s.getD (min (⌊pos1⌋₊ + 1) (s.length - 1)) 0 ≤ s.getD ⌊pos2⌋₊ 0 := by
      refine sorted_getD_mono hs ?_ hl2lt
      omega
    have hc2 : s.getD ⌊pos2⌋₊ 0 ≤ s.getD ⌊pos2⌋₊ 0 +
        (pos2 - (⌊pos2⌋₊ : ℝ)) *
          (s.getD (min (⌊pos2⌋₊ + 1) (s.length - 1)) 0 - s.getD ⌊pos2⌋₊ 0) := by
      nlinarith [hab ⌊pos2⌋₊ hl2top, hf20]
    linarith

theorem insertionSort_ne_nil {params : List ℝ} (hne : params ≠ []) :
    List.insertionSort (· ≤ ·) params ≠ [] := by
  intro h
  apply hne
  have hlen := (List.perm_insertionSort (· ≤ ·) params).length_eq
  rw [h] at hlen
  exact List.length_eq_zero.mp hlen.symm

theorem percentile_bounds (params : List ℝ) (hne : params ≠ [])
    (hin : ∀ x ∈ params, 0 ≤ x ∧ x ≤ 1) (q : ℝ) (hq : 0 ≤ q) :
    0 ≤ percentile params q ∧ percentile params q ≤ 1 := by
  simp only [percentile]
  have hins : ∀ x ∈ List.insertionSort (· ≤ ·) params, 0 ≤ x ∧ x ≤ 1 := by
    intro x hx
    exact hin x ((List.perm_insertionSort (· ≤ ·) params).mem_iff.mp hx)
  have hn1 : 1 ≤ (List.insertionSort (· ≤ ·) params).length :=
    List.length_pos.mpr (insertionSort_ne_nil hne)
  have hpos : 0 ≤ q / 100 * (((List.insertionSort (· ≤ ·) params).length : ℝ) - 1) := by
    apply mul_nonneg (by positivity)
    have : (1 : ℝ) ≤ ((List.insertionSort (· ≤ ·) params).length : ℝ) := by
      exact_mod_cast hn1
    linarith
  exact interp_bounds _ hins _ hpos

theorem percentile_mono (params : List ℝ) (hne : params ≠ [])
    (q1 q2 : ℝ) (h0 : 0 ≤ q1) (h12 : q1 ≤ q2) (h100 : q2 ≤ 100) :
    percentile params q1 ≤ percentile params q2 := by
  simp only [percentile]
  have hsne := insertionSort_ne_nil hne
  have hs : List.Sorted (· ≤ ·) (List.insertionSort (· ≤ ·) params) :=
    List.sorted_insertionSort _ _
  have hn1 : (1 : ℝ) ≤ ((List.insertionSort (· ≤ ·) params).length : ℝ) := by
    exact_mod_cast List.length_pos.mpr hsne
  have hnn : (0 : ℝ) ≤ ((List.insertionSort (· ≤ ·) params).length : ℝ) - 1 := by linarith
  refine interp_mono _ hs hsne _ _ ?_ ?_ ?_
  · exact mul_nonneg (by positivity) hnn
  · apply mul_le_mul_of_nonneg_right _ hnn
    linarith
  · have hq2 : q2 / 100 ≤ 1 := by linarith
    calc q2 / 100 * (((List.insertionSort (· ≤ ·) params).length : ℝ) - 1) ≤
        1 * (((List.insertionSort (· ≤ ·) params).length : ℝ) - 1) :=
          mul_le_mul_of_nonneg_right hq2 hnn
      _ = ((List.insertionSort (· ≤ ·) params).length : ℝ) - 1 := one_mul _

/-- Entry evaluation of the knot vector in the non-degenerate regime
`degree + 1 ≤ n_control`. -/
theorem createKnotVector_getD (params : List ℝ) (n d : ℕ) (hdn : d + 1 ≤ n)
    (i : ℕ) (hi : i < n + d + 1) :
    (createKnotVector params n d).getD i 0 =
      if d + 1 ≤ i ∧ i < n then
        percentile params (100 * (((i : ℝ) - (d : ℝ)) / ((n : ℝ) - (d : ℝ))))
      else if n ≤ i then 1 else 0 := by
  simp only [createKnotVector]
  rw [List.getD_eq_getElem _ _ (by rw [List.length_ofFn]; exact hi), List.getElem_ofFn]
  simp only [Fin.val_mk]
  by_cases h1 : d + 1 ≤ i ∧ i < n
  · rw [if_pos (by push_cast; omega), if_pos h1]
    congr 1
    push_cast
    have hden : (n : ℝ) + (d : ℝ) + 1 - 2 * ((d : ℝ) + 1) + 1 = (n : ℝ) - (d : ℝ) := by
      ring
    rw [hden]
  · rw [if_neg (by push_cast; omega)]
    by_cases h2 : n ≤ i
    · rw [if_pos (by omega), if_neg h1, if_pos h2]
    · rw [if_neg (by omega), if_neg h1, if_neg h2]

/-- C5 (amended): for a non-empty parameter list with values in [0, 1] and
any n_control ≥ 4, degree ≥ 1 with degree + 1 ≤ n_control, the knot vector
has length n_control + degree + 1, starts with degree+1 zeros, ends with
degree+1 ones, and is non-decreasing.  (Without degree + 1 ≤ n_control the
first property fails: the trailing-ones slice then reaches into the first
degree+1 entries.) -/
theorem C5_knot_vector_invariants (params : List ℝ) (n d : ℕ)
    (hne : params ≠ []) (hin : ∀ x ∈ params, 0 ≤ x ∧ x ≤ 1)
    (hn4 : 4 ≤ n) (hd1 : 1 ≤ d) (hdn : d + 1 ≤ n) :
    (createKnotVector params n d).length = n + d + 1 ∧
    (∀ i, i < d + 1 → (createKnotVector params n d).getD i 0 = 0) ∧
    (∀ i, n ≤ i → i < n + d + 1 → (createKnotVector params n d).getD i 0 = 1) ∧
    (∀ i j, i ≤ j → j < n + d + 1 →
      (createKnotVector params n d).getD i 0 ≤ (createKnotVector params n d).getD j 0) := by
  have hlen : (createKnotVector params n d).length = n + d + 1 := by
    simp [createKnotVector]
  have hdenpos : (0 : ℝ) < (n : ℝ) - (d : ℝ) := by
    have h1 : (d : ℝ) + 1 ≤ (n : ℝ) := by exact_mod_cast hdn
    linarith
  have hq0 : ∀ i : ℕ, d + 1 ≤ i → 0 ≤ 100 * (((i : ℝ) - d) / ((n : ℝ) - d)) := by
    intro i hi
    have hnum : (0 : ℝ) ≤ (i : ℝ) - d := by
      have h1 : (d : ℝ) + 1 ≤ (i : ℝ) := by exact_mod_cast hi
      linarith
    have := div_nonneg hnum hdenpos.le
    linarith
  have hq100 : ∀ i : ℕ, i < n → 100 * (((i : ℝ) - d) / ((n : ℝ) - d)) ≤ 100 := by
    intro i hi
    have h1 : ((i : ℝ) - d) / ((n : ℝ) - d) ≤ 1 := by
      rw [div_le_one hdenpos]
      have h2 : (i : ℝ) ≤ (n : ℝ) := by exact_mod_cast hi.le
      linarith
    linarith
  have hqmono : ∀ i j : ℕ, i ≤ j →
      100 * (((i : ℝ) - d) / ((n : ℝ) - d)) ≤ 100 * (((j : ℝ) - d) / ((n : ℝ) - d)) := by
    intro i j hij
    have h1 : (i : ℝ) ≤ (j : ℝ) := by exact_mod_cast hij
    exact mul_le_mul_of_nonneg_left ((div_le_div_iff_of_pos_right hdenpos).mpr (by linarith))
      (by norm_num)
  refine ⟨hlen, ?_, ?_, ?_⟩
  · intro i hi
    rw [createKnotVector_getD params n d hdn i (by omega)]
    rw [if_neg (by omega), if_neg (by omega)]
  · intro i hn_i hi
    rw [createKnotVector_getD params n d hdn i hi]
    rw [if_neg (by omega), if_pos hn_i]
  · intro i j hij hj
    rw [createKnotVector_getD params n d hdn i (by omega),
      createKnotVector_getD params n d hdn j hj]
    by_cases hi1 : d + 1 ≤ i ∧ i < n
    · rw [if_pos hi1]
      by_cases hj1 : d + 1 ≤ j ∧ j < n
      · rw [if_pos hj1]
        exact percentile_mono params hne _ _ (hq0 i hi1.1) (hqmono i j hij) (hq100 j hj1.2)
      · rw [if_neg hj1]
        have hjn : n ≤ j := by omega
        rw [if_pos hjn]
        exact (percentile_bounds params hne hin _ (hq0 i hi1.1)).2
    · rw [if_neg hi1]
      by_cases hi2 : n ≤ i
      · rw [if_pos hi2]
        have hj2 : n ≤ j := le_trans hi2 hij
        rw [if_neg (by omega), if_pos hj2]
      · rw [if_neg hi2]
        by_cases hj1 : d + 1 ≤ j ∧ j < n
        · rw [if_pos hj1]
          exact (percentile_bounds params hne hin _ (hq0 j hj1.1)).1
        · rw [if_neg hj1]
          by_cases hj2 : n ≤ j
          · rw [if_pos hj2]
            norm_num
          · rw [if_neg hj2]

/-- C5 witness: the invariants instantiated at params [0, 1], n_control 5,
degree 3 (one internal knot). -/
theorem C5_knot_vector_invariants_witness :
    (createKnotVector [0, 1] 5 3).length = 5 + 3 + 1 ∧
    (∀ i, i < 3 + 1 → (createKnotVector [0, 1] 5 3).getD i 0 = 0) ∧
    (∀ i, 5 ≤ i → i < 5 + 3 + 1 → (createKnotVector [0, 1] 5 3).getD i 0 = 1) ∧
    (∀ i j, i ≤ j → j < 5 + 3 + 1 →
      (createKnotVector [0, 1] 5 3).getD i 0 ≤ (createKnotVector [0, 1] 5 3).getD j 0) :=
  C5_knot_vector_invariants [0, 1] 5 3 (by simp)
    (by
      intro x hx
      rcases List.mem_cons.mp hx with rfl | hx1
      · norm_num
      · rcases List.mem_cons.mp hx1 with rfl | hx2
        · norm_num
        · cases hx2)
    (by norm_num) (by norm_num) (by norm_num)

/-- C5 counterexample: with n_control = 4 (≥ 4) and degree = 5 (≥ 1) the
knot vector's length and trailing ones survive, but its fifth entry is 1, so
the claimed "first degree+1 entries are 0" fails — the claim as stated over
all n_control ≥ 4, degree ≥ 1 is false. -/
theorem C5_knot_vector_invariants_counterexample :
    4 ≤ 4 ∧ 1 ≤ 5 ∧ (createKnotVector [1 / 2] 4 5).length = 4 + 5 + 1 ∧
    ¬ (∀ i, i < 5 + 1 → (createKnotVector [1 / 2] 4 5).getD i 0 = 0) := by
  refine ⟨le_refl 4, by norm_num, by simp [createKnotVector], ?_⟩
  intro h
  have h4 := h 4 (by norm_num)
  have hval : (createKnotVector [1 / 2] 4 5).getD 4 0 = 1 := by
    simp only [createKnotVector]
    rw [List.getD_eq_getElem _ _ (by rw [List.length_ofFn]; norm_num), List.getElem_ofFn]
    simp only [Fin.val_mk]
    rw [if_neg (by decide), if_pos (by norm_num)]
  rw [hval] at h4
  norm_num at h4
